import Mathlib

/-! The command `istioctl` and the kube platform tests of `istio.io/manager`.

A shallow embedding of `cmd/istioctl/main.go`: the five cobra commands
(`create`, `replace`, `get`, `delete`, `list`), `setup` and `readInputs`,
written as state-passing functions over the package-level variables of the
file (`file`, `key`, `schema`, `cmd.RootFlags.Namespace`) and over the
packages the file imports, which are taken as parameters (`Env`).
-/

namespace Istioctl

/-- The struct `model.Key`. -/
structure Key where
  Kind : String
  Name : String
  Namespace : String
deriving DecidableEq, Repr

/-- What `yamlDecoder.Decode(&v)` fills of an `inputDoc`: the fields with a json tag.
`ParsedSpec` is tagged `json:"-"` and is only ever set by `readInputs`. -/
structure decodedDoc (Spec : Type) where
  Type_ : String
  Name : String
  Spec : Spec

/-- The struct `inputDoc` once `readInputs` has stored `ParsedSpec`. -/
structure inputDoc (Spec Msg : Type) where
  Type_ : String
  Name : String
  Spec : Spec
  ParsedSpec : Msg

/-- The values of Go type `error` that the commands return. The constructors are the
places where `main.go` builds an error; `passed` is an error of a callee returned as is. -/
inductive CmdError (E : Type) where
  /-- Built by `fmt.Errorf` or `errors.New` from a literal text. -/
  | text (s : String)
  /-- From `setup`: "unknown configuration type %s; use one of %v", with the kind and
  `model.IstioConfig.Kinds()`. -/
  | unknownConfigurationType (kind : String) (kinds : List String)
  /-- From `listCmd`: "please specify configuration type (one of %v)", with
  `model.IstioConfig.Kinds()`. -/
  | specifyConfigurationType (kinds : List String)
  /-- From `readInputs`: "unknown spec type %s". -/
  | unknownSpecType (kind : String)
  /-- From `readInputs`: "cannot parse proto message: %v". -/
  | cannotParseProtoMessage (e : E)
  /-- From `readInputs`: "could not encode Spec: %v". -/
  | couldNotEncodeSpec (e : E)
  /-- From `listCmd`: "error listing %s: %v". -/
  | errorListing (kind : String) (e : E)
  /-- An error of the store client, of `os.Open` or of `ToYAML`, returned unchanged. -/
  | passed (e : E)
deriving DecidableEq, Repr

/-- A call on `cmd.Client`. -/
inductive Call (Msg : Type) where
  | post (k : Key) (o : Msg)
  | put (k : Key) (o : Msg)
  | delete (k : Key)
  | get (k : Key)
  | list (kind : String) (ns : String)
deriving DecidableEq, Repr

/-- One entry of the trace of store calls: the call and the error it returned
(`none` for a nil error; `Get` has no error result). -/
structure CallRecord (Msg E : Type) where
  call : Call Msg
  err : Option E
deriving DecidableEq, Repr

/-- The packages `main.go` imports, as parameters: the registry `model.IstioConfig` with
the methods of `model.ProtoSchema` (descriptors of type `D`), `json.Marshal`, the input
sources, and the store client `cmd.Client` acting on a store of type `σ`. -/
structure Env (D Msg Spec E σ : Type) where
  /-- The map lookup `model.IstioConfig[kind]`; `none` when `ok` is false. -/
  IstioConfig : String → Option D
  /-- The call `model.IstioConfig.Kinds()`: the names of the known kinds. -/
  Kinds : List String
  /-- Go's zero value of `model.ProtoSchema`, which a missed map lookup yields. -/
  zeroSchema : D
  FromJSON : D → String → Except E Msg
  ToYAML : D → Msg → Except E String
  /-- The call `json.Marshal(v.Spec)`. -/
  jsonMarshal : Spec → Except E String
  /-- The text of an error, as `fmt.Println(err)` prints it. -/
  errText : E → String
  /-- The documents that the YAML-or-JSON decoder yields from `os.Stdin`, one entry per
  `Decode` call, up to `io.EOF`. -/
  stdin : List (Except E (decodedDoc Spec))
  /-- The call `os.Open(file)` followed by decoding: the open error, or the documents
  that the decoder yields from the file. -/
  osOpen : String → Except E (List (Except E (decodedDoc Spec)))
  /-- The call `cmd.Client.Get(key)`: the item when `exists` is true. -/
  Get : Key → σ → Option Msg × σ
  List : String → String → σ → Except E (List (Key × Msg)) × σ
  Post : Key → Msg → σ → Option E × σ
  Put : Key → Msg → σ → Option E × σ
  Delete : Key → σ → Option E × σ

/-- The package-level variables that the commands read and write, the store behind
`cmd.Client`, the trace of the calls made on the client, and standard output. -/
structure State (D Msg E σ : Type) where
  /-- The flag `-f`. -/
  file : String
  /-- The flag `cmd.RootFlags.Namespace`. -/
  Namespace : String
  key : Key
  schema : D
  store : σ
  calls : List (CallRecord Msg E)
  out : List String

section Commands

variable {D Msg Spec E σ : Type}

/-- The constant `api.NamespaceDefault` of client-go. -/
def NamespaceDefault : String := "default"

/-- A write to standard output (`fmt.Print`, `fmt.Printf`, `fmt.Println`). -/
def print (s : String) (st : State D Msg E σ) : State D Msg E σ :=
  { st with out := st.out ++ [s] }

/-- The function `setup` (main.go 244-265). -/
def setup (env : Env D Msg Spec E σ) (kind name : String) (st : State D Msg E σ) :
    Option (CmdError E) × State D Msg E σ :=
  match env.IstioConfig kind with
  | none =>
    (some (.unknownConfigurationType kind env.Kinds), { st with schema := env.zeroSchema })
  | some s =>
    let st1 := { st with schema := s }
    let st2 := if st1.Namespace = "" then { st1 with Namespace := NamespaceDefault } else st1
    (none, { st2 with key := { Kind := kind, Name := name, Namespace := st2.Namespace } })

/-- The choice of reader at the top of `readInputs` (main.go 273-280). -/
def openInput (env : Env D Msg Spec E σ) (st : State D Msg E σ) :
    Except (CmdError E) (List (Except E (decodedDoc Spec))) :=
  if st.file = "" then .ok env.stdin
  else match env.osOpen st.file with
    | .error e => .error (.passed e)
    | .ok docs => .ok docs

/-- The decode loop of `readInputs` (main.go 286-315); the end of the list is `io.EOF`. -/
def decodeLoop (env : Env D Msg Spec E σ) :
    List (Except E (decodedDoc Spec)) → List (inputDoc Spec Msg) →
    Except (CmdError E) (List (inputDoc Spec Msg))
  | [], varr => .ok varr
  | .error e :: _, _ => .error (.cannotParseProtoMessage e)
  | .ok v :: rest, varr =>
    match env.jsonMarshal v.Spec with
    | .error e => .error (.couldNotEncodeSpec e)
    | .ok byteRule =>
      match env.IstioConfig v.Type_ with
      | none => .error (.unknownSpecType v.Type_)
      | some schema =>
        match env.FromJSON schema byteRule with
        | .error e => .error (.cannotParseProtoMessage e)
        | .ok rr =>
          decodeLoop env rest
            (varr ++ [{ Type_ := v.Type_, Name := v.Name, Spec := v.Spec, ParsedSpec := rr }])

/-- The function `readInputs` (main.go 268-318). Its `schema` is a local variable. -/
def readInputs (env : Env D Msg Spec E σ) (st : State D Msg E σ) :
    Except (CmdError E) (List (inputDoc Spec Msg)) :=
  match openInput env st with
  | .error e => .error e
  | .ok docs => decodeLoop env docs []

/-- The call `cmd.Client.Post(key, o)`, recorded in the trace. -/
def clientPost (env : Env D Msg Spec E σ) (k : Key) (o : Msg) (st : State D Msg E σ) :
    Option E × State D Msg E σ :=
  let r := env.Post k o st.store
  (r.1, { st with store := r.2, calls := st.calls ++ [{ call := .post k o, err := r.1 }] })

/-- The call `cmd.Client.Put(key, o)`, recorded in the trace. -/
def clientPut (env : Env D Msg Spec E σ) (k : Key) (o : Msg) (st : State D Msg E σ) :
    Option E × State D Msg E σ :=
  let r := env.Put k o st.store
  (r.1, { st with store := r.2, calls := st.calls ++ [{ call := .put k o, err := r.1 }] })

/-- The call `cmd.Client.Delete(key)`, recorded in the trace. -/
def clientDelete (env : Env D Msg Spec E σ) (k : Key) (st : State D Msg E σ) :
    Option E × State D Msg E σ :=
  let r := env.Delete k st.store
  (r.1, { st with store := r.2, calls := st.calls ++ [{ call := .delete k, err := r.1 }] })

/-- The call `cmd.Client.Get(key)`, recorded in the trace. -/
def clientGet (env : Env D Msg Spec E σ) (k : Key) (st : State D Msg E σ) :
    Option Msg × State D Msg E σ :=
  let r := env.Get k st.store
  (r.1, { st with store := r.2, calls := st.calls ++ [{ call := .get k, err := none }] })

/-- The call `cmd.Client.List(kind, ns)`, recorded in the trace. -/
def clientList (env : Env D Msg Spec E σ) (kind ns : String) (st : State D Msg E σ) :
    Except E (List (Key × Msg)) × State D Msg E σ :=
  let r := env.List kind ns st.store
  (r.1, { st with store := r.2, calls := st.calls ++
    [{ call := .list kind ns, err := match r.1 with | .error e => some e | .ok _ => none }] })

/-- The loop of `postCmd.RunE` (main.go 68-79). -/
def postLoop (env : Env D Msg Spec E σ) :
    List (inputDoc Spec Msg) → State D Msg E σ → Option (CmdError E) × State D Msg E σ
  | [], st => (none, st)
  | v :: rest, st =>
    match setup env v.Type_ v.Name st with
    | (some err, st1) => (some err, st1)
    | (none, st1) =>
      match clientPost env st1.key v.ParsedSpec st1 with
      | (some e, st2) => (some (.passed e), st2)
      | (none, st2) =>
        postLoop env rest (print ("Posted " ++ v.Type_ ++ " " ++ v.Name ++ "\n") st2)

/-- The command `create`: `postCmd.RunE` (main.go 57-80). -/
def postCmd (env : Env D Msg Spec E σ) (args : List String) (st : State D Msg E σ) :
    Option (CmdError E) × State D Msg E σ :=
  if args.length ≠ 0 then (some (.text "create takes no arguments"), st)
  else match readInputs env st with
    | .error err => (some err, st)
    | .ok varr =>
      if varr.length = 0 then (some (.text "nothing to create"), st)
      else postLoop env varr st

/-- The loop of `putCmd.RunE` (main.go 97-108). -/
def putLoop (env : Env D Msg Spec E σ) :
    List (inputDoc Spec Msg) → State D Msg E σ → Option (CmdError E) × State D Msg E σ
  | [], st => (none, st)
  | v :: rest, st =>
    match setup env v.Type_ v.Name st with
    | (some err, st1) => (some err, st1)
    | (none, st1) =>
      match clientPut env st1.key v.ParsedSpec st1 with
      | (some e, st2) => (some (.passed e), st2)
      | (none, st2) =>
        putLoop env rest (print ("Put " ++ v.Type_ ++ " " ++ v.Name ++ "\n") st2)

/-- The command `replace`: `putCmd.RunE` (main.go 86-109). -/
def putCmd (env : Env D Msg Spec E σ) (args : List String) (st : State D Msg E σ) :
    Option (CmdError E) × State D Msg E σ :=
  if args.length ≠ 0 then (some (.text "replace takes no arguments"), st)
  else match readInputs env st with
    | .error err => (some err, st)
    | .ok varr =>
      if varr.length = 0 then (some (.text "nothing to replace"), st)
      else putLoop env varr st

/-- The command `get`: `getCmd.RunE` (main.go 115-132). -/
def getCmd (env : Env D Msg Spec E σ) (args : List String) (st : State D Msg E σ) :
    Option (CmdError E) × State D Msg E σ :=
  match args with
  | [kind, name] =>
    match setup env kind name st with
    | (some err, st1) => (some err, st1)
    | (none, st1) =>
      match clientGet env st1.key st1 with
      | (none, st2) => (some (.text "does not exist"), st2)
      | (some item, st2) =>
        match env.ToYAML st2.schema item with
        | .error e => (some (.passed e), st2)
        | .ok out => (none, print out st2)
  | _ => (some (.text "provide configuration type and name"), st)

/-- The loop over `args[1:]` of `deleteCmd.RunE` (main.go 144-153); `kind` is `args[0]`. -/
def deleteArgsLoop (env : Env D Msg Spec E σ) (kind : String) :
    List String → State D Msg E σ → Option (CmdError E) × State D Msg E σ
  | [], st => (none, st)
  | name :: rest, st =>
    match setup env kind name st with
    | (some err, st1) => (some err, st1)
    | (none, st1) =>
      match clientDelete env st1.key st1 with
      | (some e, st2) => (some (.passed e), st2)
      | (none, st2) =>
        deleteArgsLoop env kind rest (print ("Deleted " ++ kind ++ " " ++ name ++ "\n") st2)

/-- The loop over the documents of `deleteCmd.RunE` (main.go 167-178). -/
def deleteLoop (env : Env D Msg Spec E σ) :
    List (inputDoc Spec Msg) → State D Msg E σ → Option (CmdError E) × State D Msg E σ
  | [], st => (none, st)
  | v :: rest, st =>
    match setup env v.Type_ v.Name st with
    | (some err, st1) => (some err, st1)
    | (none, st1) =>
      match clientDelete env st1.key st1 with
      | (some e, st2) => (some (.passed e), st2)
      | (none, st2) =>
        deleteLoop env rest (print ("Deleted " ++ v.Type_ ++ " " ++ v.Name ++ "\n") st2)

/-- The command `delete`: `deleteCmd.RunE` (main.go 138-179). -/
def deleteCmd (env : Env D Msg Spec E σ) (args : List String) (st : State D Msg E σ) :
    Option (CmdError E) × State D Msg E σ :=
  if st.file = "" then
    match args with
    | kind :: name :: rest => deleteArgsLoop env kind (name :: rest) st
    | _ => (some (.text "provide configuration type and name or -f option"), st)
  else if args.length ≠ 0 then
    (some (.text "delete takes no arguments when the file option is used"), st)
  else match readInputs env st with
    | .error err => (some err, st)
    | .ok varr =>
      if varr.length = 0 then (some (.text "nothing to delete"), st)
      else deleteLoop env varr st

/-- The inner loop of `listCmd.RunE` over the lines of the YAML (main.go 208-212). -/
def printLines : List String → State D Msg E σ → State D Msg E σ
  | [], st => st
  | line :: rest, st =>
    if line ≠ "" then printLines rest (print ("  " ++ line ++ "\n") st)
    else printLines rest st

/-- The loop of `listCmd.RunE` over the listed items (main.go 198-215), in the order in
which the Go runtime ranges over the map. The loop variable `key` is local. -/
def listLoop (env : Env D Msg Spec E σ) :
    List (Key × Msg) → State D Msg E σ → State D Msg E σ
  | [], st => st
  | (k, item) :: rest, st =>
    let st1 :=
      match env.ToYAML st.schema item with
      | .error err => print (env.errText err ++ "\n") st
      | .ok out =>
        printLines (out.splitOn "\n")
          (print "spec:\n"
            (print ("namespace: " ++ k.Namespace ++ "\n")
              (print ("name: " ++ k.Name ++ "\n")
                (print ("kind: " ++ k.Kind ++ "\n") st))))
    listLoop env rest (print "---\n" st1)

/-- The command `list`: `listCmd.RunE` (main.go 185-217). -/
def listCmd (env : Env D Msg Spec E σ) (args : List String) (st : State D Msg E σ) :
    Option (CmdError E) × State D Msg E σ :=
  match args with
  | [kind] =>
    match setup env kind "" st with
    | (some err, st1) => (some err, st1)
    | (none, st1) =>
      match clientList env st1.key.Kind st1.key.Namespace st1 with
      | (.error e, st2) => (some (.errorListing st2.key.Kind e), st2)
      | (.ok list, st2) => (none, listLoop env list st2)
  | _ => (some (.specifyConfigurationType env.Kinds), st)

/-- The function `main` (main.go 237-242): the status of `os.Exit(-1)` when the command
returned an error, and 0 when `main` returns. -/
def mainStatus (err : Option (CmdError E)) : Int :=
  match err with
  | some _ => -1
  | none => 0

/-! ### Definitions used to state and prove the properties -/

/-- The namespace that `setup` puts in the key: the flag, or the default when the flag
is empty (main.go 253-262). -/
def effectiveNamespace (st : State D Msg E σ) : String :=
  if st.Namespace = "" then NamespaceDefault else st.Namespace

/-- A store write recorded in the trace: the shape shared by `clientPost`, `clientPut`
and `clientDelete`. -/
def clientWrite {α : Type} (op : Key → α → σ → Option E × σ) (mk : Key → α → Call Msg)
    (k : Key) (a : α) (st : State D Msg E σ) : Option E × State D Msg E σ :=
  let r := op k a st.store
  (r.1, { st with store := r.2, calls := st.calls ++ [{ call := mk k a, err := r.1 }] })

/-- The shape shared by the four write loops of `main.go` (`postLoop`, `putLoop`,
`deleteLoop`, `deleteArgsLoop`): `setup`, one store write, one line of output. -/
def writeLoop {α : Type} (env : Env D Msg Spec E σ) (op : Key → α → σ → Option E × σ)
    (mk : Key → α → Call Msg) (verb : String) :
    List (String × String × α) → State D Msg E σ → Option (CmdError E) × State D Msg E σ
  | [], st => (none, st)
  | (kind, name, a) :: rest, st =>
    match setup env kind name st with
    | (some err, st1) => (some err, st1)
    | (none, st1) =>
      match clientWrite op mk st1.key a st1 with
      | (some e, st2) => (some (.passed e), st2)
      | (none, st2) =>
        writeLoop env op mk verb rest (print (verb ++ kind ++ " " ++ name ++ "\n") st2)

/-- A document of the input stream that `readInputs` does not accept: it fails to
decode, `json.Marshal` of its spec fails, its type is not a kind of the registry, or
the kind's `FromJSON` rejects it. -/
def badDocument (env : Env D Msg Spec E σ) (d : Except E (decodedDoc Spec)) : Prop :=
  (∃ e, d = .error e) ∨
  (∃ v e, d = .ok v ∧ env.jsonMarshal v.Spec = .error e) ∨
  (∃ v, d = .ok v ∧ env.IstioConfig v.Type_ = none) ∨
  (∃ v s b e, d = .ok v ∧ env.IstioConfig v.Type_ = some s ∧
    env.jsonMarshal v.Spec = .ok b ∧ env.FromJSON s b = .error e)

/-- The store after the client was asked for the writes `items`, one after the other. -/
def storeAfter {α : Type} (op : Key → α → σ → Option E × σ) : List (Key × α) → σ → σ
  | [], s => s
  | (k, a) :: rest, s => storeAfter op rest (op k a s).2

/-- Whether the client returns nil for every one of the writes `items`, asked one after
the other starting from the store `s`. -/
def allSucceed {α : Type} (op : Key → α → σ → Option E × σ) : List (Key × α) → σ → Bool
  | [], _ => true
  | (k, a) :: rest, s => (op k a s).1.isNone && allSucceed op rest (op k a s).2

/-- The key under which the commands write the document or the name `name` of kind
`kind`, when they start in `st`. -/
def keyOf (st : State D Msg E σ) (kind name : String) : Key :=
  { Kind := kind, Name := name, Namespace := effectiveNamespace st }

/-- The store calls that a run starting in `st` and ending in `st1` has made. -/
def newCalls (st st1 : State D Msg E σ) : List (CallRecord Msg E) :=
  st1.calls.drop st.calls.length

/-- A run that returns an error and leaves the store and the trace as they were. -/
def failsWithoutWrite (r : Option (CmdError E) × State D Msg E σ) (st : State D Msg E σ) :
    Prop :=
  r.1.isSome = true ∧ r.2.calls = st.calls ∧ r.2.store = st.store

end Commands

/-! ### A concrete environment

A registry of two kinds and a store kept as an association list, on which the
commands can be evaluated. -/

/-- A registry with the kinds `route-rule` and `destination-policy`. -/
def exampleRegistry (kind : String) : Option String :=
  if kind = "route-rule" then some "RouteRule"
  else if kind = "destination-policy" then some "DestinationPolicy"
  else none

/-- An environment over `exampleRegistry` that reads the documents `docs` from standard
input and from the file `rules.yaml`, the only file there is. Its store rejects the object `"rejected"` and the name `"missing"`; its `ToYAML`
fails on the object `"unrenderable"`; its `FromJSON` fails on the empty payload. -/
def exampleEnv (docs : List (Except String (decodedDoc String))) :
    Env String String String String (List (Key × String)) where
  IstioConfig := exampleRegistry
  Kinds := ["destination-policy", "route-rule"]
  zeroSchema := ""
  FromJSON := fun _ b => if b = "" then .error "empty payload" else .ok b
  ToYAML := fun _ o => if o = "unrenderable" then .error "cannot render" else .ok (o ++ "\n")
  jsonMarshal := fun spec => .ok spec
  errText := fun e => e
  stdin := docs
  osOpen := fun f => if f = "rules.yaml" then .ok docs else .error "no such file"
  Get := fun k s => (s.lookup k, s)
  List := fun kind ns s => (.ok (s.filter (fun p => p.1.Kind = kind ∧ p.1.Namespace = ns)), s)
  Post := fun k o s =>
    if o = "rejected" then (some "rejected by the store", s) else (none, s ++ [(k, o)])
  Put := fun k o s =>
    if o = "rejected" then (some "rejected by the store", s) else (none, s ++ [(k, o)])
  Delete := fun k s =>
    if k.Name = "missing" then (some "not found", s) else (none, s.filter (fun p => p.1 ≠ k))

/-- The state at the start of the process: no flag set, nothing stored or printed. -/
def exampleState (file : String) (store : List (Key × String)) :
    State String String String (List (Key × String)) where
  file := file
  Namespace := ""
  key := ⟨"", "", ""⟩
  schema := ""
  store := store
  calls := []
  out := []

/-- A document of type `kind` with the given name and payload. -/
def exampleDoc (kind name spec : String) : Except String (decodedDoc String) :=
  .ok { Type_ := kind, Name := name, Spec := spec }

/-- Three documents of known kinds; the store of `exampleEnv` refuses the second. -/
def threeDocs : List (Except String (decodedDoc String)) :=
  [exampleDoc "route-rule" "r1" "a", exampleDoc "destination-policy" "p" "rejected",
   exampleDoc "route-rule" "r2" "b"]

/-- What `readInputs` makes of `threeDocs`. -/
def threeParsed : List (inputDoc String String) :=
  [⟨"route-rule", "r1", "a", "a"⟩, ⟨"destination-policy", "p", "rejected", "rejected"⟩,
   ⟨"route-rule", "r2", "b", "b"⟩]

end Istioctl

/-! ## The kube platform: what `controller_test.go` exercises

`platform/kube` itself is not among the sources here; only its tests are. -/

namespace Kube

/-- The part of `v1beta1.Ingress` that `ingressIgnored` reads: the annotations of its
`ObjectMeta`, a map from annotation name to value. -/
structure Ingress where
  Name : String
  Namespace : String
  Annotations : List (String × String)

/-- The annotation that `TestIngressIgnored` sets. -/
def ingressClassKey : String := "kubernetes.io/ingress.class"

/-- Equality of two strings up to the case of their letters. -/
def equalFold (a b : String) : Bool :=
  a.data.map Char.toLower == b.data.map Char.toLower

/-- Modelled from the spec: `ingressIgnored` of `platform/kube`, of which only the test
`TestIngressIgnored` is among the sources. "An ingress resource is ignored when its class
annotation (case-insensitive comparison) is present and its value is neither empty nor
exactly istio"; "an ingress with no class annotation is not ignored". -/
def ingressIgnored (ingress : Ingress) : Bool :=
  match ingress.Annotations.lookup ingressClassKey with
  | none => false
  | some cls => if cls = "" then false else !(equalFold cls "istio")

/-- The ingress that `TestIngressIgnored` builds for one case of its table
(controller_test.go 48-64): the annotation is set only when the class is not empty. -/
def testIngress (ingressClass : String) : Ingress where
  Name := "test-ingress"
  Namespace := "default"
  Annotations := if ingressClass ≠ "" then [(ingressClassKey, ingressClass)] else []

end Kube

namespace Istioctl

/-! ### Lemmas -/

section Lemmas

variable {D Msg Spec E σ : Type}

theorem effectiveNamespace_ne_empty (st : State D Msg E σ) : effectiveNamespace st ≠ "" := by
  unfold effectiveNamespace
  split
  · simp [NamespaceDefault]
  · assumption

theorem setup_known (env : Env D Msg Spec E σ) (kind name : String) (st : State D Msg E σ)
    (s : D) (h : env.IstioConfig kind = some s) :
    setup env kind name st =
      (none, { st with schema := s, Namespace := effectiveNamespace st,
                       key := { Kind := kind, Name := name,
                                Namespace := effectiveNamespace st } }) := by
  unfold setup effectiveNamespace
  rw [h]
  by_cases hn : st.Namespace = "" <;> simp [hn]

theorem setup_unknown (env : Env D Msg Spec E σ) (kind name : String) (st : State D Msg E σ)
    (h : env.IstioConfig kind = none) :
    setup env kind name st =
      (some (.unknownConfigurationType kind env.Kinds),
        { st with schema := env.zeroSchema }) := by
  unfold setup
  rw [h]

theorem postLoop_eq_writeLoop (env : Env D Msg Spec E σ) (varr : List (inputDoc Spec Msg))
    (st : State D Msg E σ) :
    postLoop env varr st =
      writeLoop env env.Post Call.post "Posted "
        (varr.map (fun v => (v.Type_, v.Name, v.ParsedSpec))) st := by
  induction varr generalizing st with
  | nil => rfl
  | cons v rest ih =>
    simp only [postLoop, List.map_cons, writeLoop, clientPost, clientWrite]
    split
    · rfl
    · split
      · rfl
      · exact ih _

theorem putLoop_eq_writeLoop (env : Env D Msg Spec E σ) (varr : List (inputDoc Spec Msg))
    (st : State D Msg E σ) :
    putLoop env varr st =
      writeLoop env env.Put Call.put "Put "
        (varr.map (fun v => (v.Type_, v.Name, v.ParsedSpec))) st := by
  induction varr generalizing st with
  | nil => rfl
  | cons v rest ih =>
    simp only [putLoop, List.map_cons, writeLoop, clientPut, clientWrite]
    split
    · rfl
    · split
      · rfl
      · exact ih _

theorem deleteLoop_eq_writeLoop (env : Env D Msg Spec E σ) (varr : List (inputDoc Spec Msg))
    (st : State D Msg E σ) :
    deleteLoop env varr st =
      writeLoop env (fun k (_ : Unit) => env.Delete k) (fun k _ => Call.delete k) "Deleted "
        (varr.map (fun v => (v.Type_, v.Name, ()))) st := by
  induction varr generalizing st with
  | nil => rfl
  | cons v rest ih =>
    simp only [deleteLoop, List.map_cons, writeLoop, clientDelete, clientWrite]
    split
    · rfl
    · split
      · rfl
      · exact ih _

theorem deleteArgsLoop_eq_writeLoop (env : Env D Msg Spec E σ) (kind : String)
    (names : List String) (st : State D Msg E σ) :
    deleteArgsLoop env kind names st =
      writeLoop env (fun k (_ : Unit) => env.Delete k) (fun k _ => Call.delete k) "Deleted "
        (names.map (fun n => (kind, n, ()))) st := by
  induction names generalizing st with
  | nil => rfl
  | cons v rest ih =>
    simp only [deleteArgsLoop, List.map_cons, writeLoop, clientDelete, clientWrite]
    split
    · rfl
    · split
      · rfl
      · exact ih _

/-- The trace of a write loop over items of known kinds: either every item was written
once, in order and without error, or the loop stopped at the first failing write. -/
theorem writeLoop_trace {α : Type} (env : Env D Msg Spec E σ)
    (op : Key → α → σ → Option E × σ) (mk : Key → α → Call Msg) (verb : String) :
    ∀ (items : List (String × String × α)) (st : State D Msg E σ),
      (∀ it ∈ items, env.IstioConfig it.1 ≠ none) →
      ((writeLoop env op mk verb items st).1 = none ∧
        (writeLoop env op mk verb items st).2.calls = st.calls ++ items.map (fun it =>
          { call := mk ⟨it.1, it.2.1, effectiveNamespace st⟩ it.2.2, err := none }))
      ∨ (∃ pre it post e, items = pre ++ it :: post ∧
        (writeLoop env op mk verb items st).1 = some (.passed e) ∧
        (writeLoop env op mk verb items st).2.calls = st.calls ++ pre.map (fun it =>
          { call := mk ⟨it.1, it.2.1, effectiveNamespace st⟩ it.2.2, err := none })
          ++ [{ call := mk ⟨it.1, it.2.1, effectiveNamespace st⟩ it.2.2, err := some e }]) := by
  intro items
  induction items with
  | nil => intro st _; left; simp [writeLoop]
  | cons it rest ih =>
    intro st hk
    obtain ⟨kind, name, a⟩ := it
    have hkind : env.IstioConfig kind ≠ none := hk (kind, name, a) (List.mem_cons_self _ _)
    obtain ⟨s, hs⟩ := Option.ne_none_iff_exists'.mp hkind
    have hrest : ∀ it ∈ rest, env.IstioConfig it.1 ≠ none :=
      fun it hit => hk it (List.mem_cons_of_mem _ hit)
    simp only [writeLoop, setup_known env kind name st s hs, clientWrite]
    cases hop : (op ⟨kind, name, effectiveNamespace st⟩ a st.store).1 with
    | some e =>
      right
      refine ⟨[], (kind, name, a), rest, e, rfl, ?_, ?_⟩ <;> simp [hop]
    | none =>
      simp only [hop]
      generalize hst1 : print (verb ++ kind ++ " " ++ name ++ "\n") _ = st1
      have hN : st1.Namespace = effectiveNamespace st := by rw [← hst1]; rfl
      have hC : st1.calls = st.calls ++ [{ call := mk ⟨kind, name, effectiveNamespace st⟩ a,
                                           err := none }] := by rw [← hst1]; rfl
      have hE : effectiveNamespace st1 = effectiveNamespace st := by
        have hne := effectiveNamespace_ne_empty st
        rw [← hN] at hne
        rw [← hN]
        unfold effectiveNamespace
        simp [hne]
      rcases ih st1 hrest with h | ⟨pre, it, post, e, hitems, hres, hcalls⟩
      · left
        rw [hE, hC] at h
        refine ⟨h.1, ?_⟩
        rw [h.2]
        simp
      · right
        rw [hE, hC] at hcalls
        refine ⟨(kind, name, a) :: pre, it, post, e, by simp [hitems], hres, ?_⟩
        rw [hcalls]
        simp

/-- The trace lemma for a loop over `xs.map f`, split along `xs`. -/
theorem writeLoop_trace_map {α β : Type} (env : Env D Msg Spec E σ)
    (op : Key → α → σ → Option E × σ) (mk : Key → α → Call Msg) (verb : String)
    (f : β → String × String × α) (xs : List β) (st : State D Msg E σ)
    (hk : ∀ x ∈ xs, env.IstioConfig (f x).1 ≠ none) :
    ((writeLoop env op mk verb (xs.map f) st).1 = none ∧
      (writeLoop env op mk verb (xs.map f) st).2.calls = st.calls ++ xs.map (fun x =>
        { call := mk ⟨(f x).1, (f x).2.1, effectiveNamespace st⟩ (f x).2.2, err := none }))
    ∨ (∃ pre x post e, xs = pre ++ x :: post ∧
      (writeLoop env op mk verb (xs.map f) st).1 = some (.passed e) ∧
      (writeLoop env op mk verb (xs.map f) st).2.calls = st.calls ++ pre.map (fun x =>
        { call := mk ⟨(f x).1, (f x).2.1, effectiveNamespace st⟩ (f x).2.2, err := none })
        ++ [{ call := mk ⟨(f x).1, (f x).2.1, effectiveNamespace st⟩ (f x).2.2,
              err := some e }]) := by
  have hk2 : ∀ it ∈ xs.map f, env.IstioConfig it.1 ≠ none := by
    intro it hit
    obtain ⟨x, hx, rfl⟩ := List.mem_map.mp hit
    exact hk x hx
  rcases writeLoop_trace env op mk verb (xs.map f) st hk2 with
    h | ⟨pre, it, post, e, hitems, hres, hcalls⟩
  · left
    refine ⟨h.1, ?_⟩
    rw [h.2, List.map_map]
    rfl
  · right
    obtain ⟨l1, l2, hxs, hl1, hl2⟩ := List.map_eq_append_iff.mp hitems
    obtain ⟨x, l3, hl2e, hx, _⟩ := List.map_eq_cons_iff.mp hl2
    refine ⟨l1, x, l3, e, by rw [hxs, hl2e], hres, ?_⟩
    rw [hcalls, ← hl1, ← hx, List.map_map]
    rfl

theorem decodeLoop_kinds (env : Env D Msg Spec E σ) :
    ∀ (docs : List (Except E (decodedDoc Spec))) (acc varr : List (inputDoc Spec Msg)),
      decodeLoop env docs acc = .ok varr →
      (∀ v ∈ acc, env.IstioConfig v.Type_ ≠ none) →
      ∀ v ∈ varr, env.IstioConfig v.Type_ ≠ none := by
  intro docs
  induction docs with
  | nil =>
    intro acc varr h hacc
    simp only [decodeLoop, Except.ok.injEq] at h
    exact h ▸ hacc
  | cons d rest ih =>
    intro acc varr h hacc
    cases d with
    | error e => simp [decodeLoop] at h
    | ok v =>
      simp only [decodeLoop] at h
      split at h
      · simp at h
      · split at h
        · simp at h
        · rename_i s hs
          split at h
          · simp at h
          · refine ih _ _ h ?_
            intro w hw
            rcases List.mem_append.mp hw with hw | hw
            · exact hacc w hw
            · simp only [List.mem_singleton] at hw
              subst hw
              simp [hs]

theorem decodeLoop_bad (env : Env D Msg Spec E σ) :
    ∀ (docs : List (Except E (decodedDoc Spec))) (acc : List (inputDoc Spec Msg)),
      (∃ d ∈ docs, badDocument env d) → ∃ err, decodeLoop env docs acc = .error err := by
  intro docs
  induction docs with
  | nil => intro acc h; simp at h
  | cons d rest ih =>
    intro acc h
    obtain ⟨b, hb, hbad⟩ := h
    cases d with
    | error e => exact ⟨_, rfl⟩
    | ok v =>
      simp only [decodeLoop]
      split
      · exact ⟨_, rfl⟩
      · rename_i byteRule hm
        split
        · exact ⟨_, rfl⟩
        · rename_i s hs
          split
          · exact ⟨_, rfl⟩
          · rename_i rr hf
            rcases List.mem_cons.mp hb with hb | hb
            · subst hb
              rcases hbad with ⟨e, he⟩ | ⟨w, e, hw, he⟩ | ⟨w, hw, he⟩ | ⟨w, s2, b2, e, hw, h1, h2, h3⟩
              · simp at he
              · simp only [Except.ok.injEq] at hw
                subst hw
                simp [hm] at he
              · simp only [Except.ok.injEq] at hw
                subst hw
                simp [hs] at he
              · simp only [Except.ok.injEq] at hw
                subst hw
                rw [hs] at h1
                rw [hm] at h2
                simp only [Option.some.injEq] at h1
                simp only [Except.ok.injEq] at h2
                subst h1 h2
                simp [hf] at h3
            · exact ih _ ⟨b, hb, hbad⟩

/-- Input that holds no document, or a bad one, or cannot be opened, makes `readInputs`
return an error or the empty list. -/
theorem readInputs_bad (env : Env D Msg Spec E σ) (st : State D Msg E σ)
    (h : (∃ e, openInput env st = .error e) ∨
      (∃ docs, openInput env st = .ok docs ∧ (docs = [] ∨ ∃ d ∈ docs, badDocument env d))) :
    (∃ err, readInputs env st = .error err) ∨ readInputs env st = .ok [] := by
  rcases h with ⟨e, he⟩ | ⟨docs, hd, hdocs⟩
  · left
    exact ⟨e, by simp [readInputs, he]⟩
  · rcases hdocs with rfl | hbad
    · right
      simp [readInputs, hd, decodeLoop]
    · left
      obtain ⟨err, herr⟩ := decodeLoop_bad env docs [] hbad
      exact ⟨err, by simp [readInputs, hd, herr]⟩

theorem readInputs_kinds (env : Env D Msg Spec E σ) (st : State D Msg E σ)
    (varr : List (inputDoc Spec Msg)) (h : readInputs env st = .ok varr) :
    ∀ v ∈ varr, env.IstioConfig v.Type_ ≠ none := by
  unfold readInputs at h
  split at h
  · simp at h
  · exact decodeLoop_kinds env _ [] varr h (by simp)

theorem postCmd_no_write (env : Env D Msg Spec E σ) (args : List String)
    (st : State D Msg E σ)
    (h : args ≠ [] ∨ (∃ err, readInputs env st = .error err) ∨ readInputs env st = .ok []) :
    failsWithoutWrite (postCmd env args st) st := by
  unfold postCmd failsWithoutWrite
  by_cases ha : args.length ≠ 0
  · simp [ha]
  · have ha2 : args = [] := List.length_eq_zero.mp (not_not.mp ha)
    rcases h with h | ⟨err, h⟩ | h
    · exact absurd ha2 h
    · simp [ha2, h]
    · simp [ha2, h]

theorem putCmd_no_write (env : Env D Msg Spec E σ) (args : List String)
    (st : State D Msg E σ)
    (h : args ≠ [] ∨ (∃ err, readInputs env st = .error err) ∨ readInputs env st = .ok []) :
    failsWithoutWrite (putCmd env args st) st := by
  unfold putCmd failsWithoutWrite
  by_cases ha : args.length ≠ 0
  · simp [ha]
  · have ha2 : args = [] := List.length_eq_zero.mp (not_not.mp ha)
    rcases h with h | ⟨err, h⟩ | h
    · exact absurd ha2 h
    · simp [ha2, h]
    · simp [ha2, h]

theorem deleteCmd_file_no_write (env : Env D Msg Spec E σ) (args : List String)
    (st : State D Msg E σ) (hf : st.file ≠ "")
    (h : args ≠ [] ∨ (∃ err, readInputs env st = .error err) ∨ readInputs env st = .ok []) :
    failsWithoutWrite (deleteCmd env args st) st := by
  unfold deleteCmd failsWithoutWrite
  by_cases ha : args.length ≠ 0
  · simp [ha, hf]
  · have ha2 : args = [] := List.length_eq_zero.mp (not_not.mp ha)
    rcases h with h | ⟨err, h⟩ | h
    · exact absurd ha2 h
    · simp [ha2, h, hf]
    · simp [ha2, h, hf]

/-- Each write loop only appends to the trace, and when it returns nil every call it
appended returned nil. -/
theorem writeLoop_calls {α : Type} (env : Env D Msg Spec E σ)
    (op : Key → α → σ → Option E × σ) (mk : Key → α → Call Msg) (verb : String) :
    ∀ (items : List (String × String × α)) (st : State D Msg E σ),
      ∃ X, (writeLoop env op mk verb items st).2.calls = st.calls ++ X ∧
        ((writeLoop env op mk verb items st).1 = none → ∀ r ∈ X, r.err = none) := by
  intro items
  induction items with
  | nil => intro st; exact ⟨[], by simp [writeLoop]⟩
  | cons it rest ih =>
    intro st
    obtain ⟨kind, name, a⟩ := it
    cases hs : env.IstioConfig kind with
    | none =>
      refine ⟨[], ?_⟩
      simp [writeLoop, setup_unknown env kind name st hs]
    | some s =>
      simp only [writeLoop, setup_known env kind name st s hs, clientWrite]
      cases hop : (op ⟨kind, name, effectiveNamespace st⟩ a st.store).1 with
      | some e =>
        exact ⟨[{ call := mk ⟨kind, name, effectiveNamespace st⟩ a, err := some e }],
          by simp [hop]⟩
      | none =>
        simp only [hop]
        generalize hst1 : print (verb ++ kind ++ " " ++ name ++ "\n") _ = st1
        have hC : st1.calls = st.calls ++
            [{ call := mk ⟨kind, name, effectiveNamespace st⟩ a, err := none }] := by
          rw [← hst1]; rfl
        obtain ⟨X, hX, hnone⟩ := ih st1
        refine ⟨{ call := mk ⟨kind, name, effectiveNamespace st⟩ a, err := none } :: X, ?_, ?_⟩
        · rw [hX, hC]; simp
        · intro hres r hr
          rcases List.mem_cons.mp hr with hr | hr
          · rw [hr]
          · exact hnone hres r hr

theorem newCalls_append (st st1 : State D Msg E σ) (X : List (CallRecord Msg E))
    (h : st1.calls = st.calls ++ X) : newCalls st st1 = X := by
  unfold newCalls
  rw [h]
  exact List.drop_left _ _

theorem printLines_calls (lines : List String) (st : State D Msg E σ) :
    (printLines lines st).calls = st.calls ∧ (printLines lines st).store = st.store := by
  induction lines generalizing st with
  | nil => exact ⟨rfl, rfl⟩
  | cons l rest ih =>
    unfold printLines
    split
    · exact ih _
    · exact ih _

theorem listLoop_calls (env : Env D Msg Spec E σ) (items : List (Key × Msg))
    (st : State D Msg E σ) :
    (listLoop env items st).calls = st.calls ∧ (listLoop env items st).store = st.store := by
  induction items generalizing st with
  | nil => exact ⟨rfl, rfl⟩
  | cons it rest ih =>
    obtain ⟨k, item⟩ := it
    simp only [listLoop]
    rw [(ih _).1, (ih _).2]
    split
    · exact ⟨rfl, rfl⟩
    · simp only [print]
      exact printLines_calls _ _

theorem writeLoop_no_dropped {α : Type} (env : Env D Msg Spec E σ)
    (op : Key → α → σ → Option E × σ) (mk : Key → α → Call Msg) (verb : String)
    (items : List (String × String × α)) (st : State D Msg E σ)
    (h : (writeLoop env op mk verb items st).1 = none) :
    ∀ r ∈ newCalls st (writeLoop env op mk verb items st).2, r.err = none := by
  obtain ⟨X, hX, hnone⟩ := writeLoop_calls env op mk verb items st
  rw [newCalls_append st _ X hX]
  exact hnone h

theorem printLines_frame (lines : List String) (st : State D Msg E σ) :
    (printLines lines st).schema = st.schema ∧
    ∀ x ∈ st.out, x ∈ (printLines lines st).out := by
  induction lines generalizing st with
  | nil => exact ⟨rfl, fun _ h => h⟩
  | cons l rest ih =>
    unfold printLines
    split
    · refine ⟨(ih _).1, fun x hx => (ih _).2 x ?_⟩
      simp [print, hx]
    · exact ih _

/-- The loop of `list` keeps what was printed, and prints the text of the error of every
item that `ToYAML` rejects. -/
theorem listLoop_prints_errors (env : Env D Msg Spec E σ) (items : List (Key × Msg)) :
    ∀ st : State D Msg E σ,
      (∀ x ∈ st.out, x ∈ (listLoop env items st).out) ∧
      (∀ p ∈ items, ∀ e, env.ToYAML st.schema p.2 = .error e →
        (env.errText e ++ "\n") ∈ (listLoop env items st).out) := by
  induction items with
  | nil => intro st; exact ⟨fun _ h => h, fun _ h => by simp at h⟩
  | cons it rest ih =>
    intro st
    obtain ⟨k, item⟩ := it
    simp only [listLoop]
    cases hy : env.ToYAML st.schema item with
    | error e0 =>
      simp only []
      have hsch : (print "---\n" (print (env.errText e0 ++ "\n") st)).schema = st.schema := rfl
      have ih1 := ih (print "---\n" (print (env.errText e0 ++ "\n") st))
      rw [hsch] at ih1
      refine ⟨fun x hx => ih1.1 x (by simp [print, hx]), ?_⟩
      intro p hp e he
      rcases List.mem_cons.mp hp with hp | hp
      · subst hp
        rw [hy] at he
        cases he
        exact ih1.1 _ (by simp [print])
      · exact ih1.2 p hp e he
    | ok out =>
      simp only []
      generalize hst1 : printLines (out.splitOn "\n") _ = st1
      have hf := printLines_frame (out.splitOn "\n")
        (print "spec:\n" (print ("namespace: " ++ k.Namespace ++ "\n")
          (print ("name: " ++ k.Name ++ "\n") (print ("kind: " ++ k.Kind ++ "\n") st))))
      rw [hst1] at hf
      have hsch : (print "---\n" st1).schema = st.schema := by
        show st1.schema = st.schema
        rw [hf.1]; rfl
      have ih1 := ih (print "---\n" st1)
      rw [hsch] at ih1
      refine ⟨fun x hx => ih1.1 x ?_, ?_⟩
      · have := hf.2 x (by simp [print, hx])
        simp [print, this]
      · intro p hp e he
        rcases List.mem_cons.mp hp with hp | hp
        · subst hp
          rw [hy] at he
          cases he
        · exact ih1.2 p hp e he

theorem postCmd_no_dropped (env : Env D Msg Spec E σ) (args : List String)
    (st : State D Msg E σ) (h : (postCmd env args st).1 = none) :
    ∀ r ∈ newCalls st (postCmd env args st).2, r.err = none := by
  by_cases ha : args.length ≠ 0
  · simp [postCmd, ha] at h
  · cases hr : readInputs env st with
    | error err => simp [postCmd, ha, hr] at h
    | ok varr =>
      by_cases hv : varr.length = 0
      · simp [postCmd, ha, hr, hv] at h
      · have hcmd : postCmd env args st = postLoop env varr st := by
          simp [postCmd, ha, hr, hv]
        rw [hcmd, postLoop_eq_writeLoop] at h ⊢
        exact writeLoop_no_dropped _ _ _ _ _ _ h

theorem putCmd_no_dropped (env : Env D Msg Spec E σ) (args : List String)
    (st : State D Msg E σ) (h : (putCmd env args st).1 = none) :
    ∀ r ∈ newCalls st (putCmd env args st).2, r.err = none := by
  by_cases ha : args.length ≠ 0
  · simp [putCmd, ha] at h
  · cases hr : readInputs env st with
    | error err => simp [putCmd, ha, hr] at h
    | ok varr =>
      by_cases hv : varr.length = 0
      · simp [putCmd, ha, hr, hv] at h
      · have hcmd : putCmd env args st = putLoop env varr st := by
          simp [putCmd, ha, hr, hv]
        rw [hcmd, putLoop_eq_writeLoop] at h ⊢
        exact writeLoop_no_dropped _ _ _ _ _ _ h

theorem deleteCmd_no_dropped (env : Env D Msg Spec E σ) (args : List String)
    (st : State D Msg E σ) (h : (deleteCmd env args st).1 = none) :
    ∀ r ∈ newCalls st (deleteCmd env args st).2, r.err = none := by
  by_cases hf : st.file = ""
  · match args with
    | [] => simp [deleteCmd, hf] at h
    | [a] => simp [deleteCmd, hf] at h
    | kind :: name :: rest =>
      have hcmd : deleteCmd env (kind :: name :: rest) st =
          deleteArgsLoop env kind (name :: rest) st := by
        simp [deleteCmd, hf]
      rw [hcmd, deleteArgsLoop_eq_writeLoop] at h ⊢
      exact writeLoop_no_dropped _ _ _ _ _ _ h
  · by_cases ha : args.length ≠ 0
    · simp [deleteCmd, hf, ha] at h
    · cases hr : readInputs env st with
      | error err => simp [deleteCmd, hf, ha, hr] at h
      | ok varr =>
        by_cases hv : varr.length = 0
        · simp [deleteCmd, hf, ha, hr, hv] at h
        · have hcmd : deleteCmd env args st = deleteLoop env varr st := by
            simp [deleteCmd, hf, ha, hr, hv]
          rw [hcmd, deleteLoop_eq_writeLoop] at h ⊢
          exact writeLoop_no_dropped _ _ _ _ _ _ h

theorem getCmd_calls (env : Env D Msg Spec E σ) (args : List String)
    (st : State D Msg E σ) :
    ∃ X, (getCmd env args st).2.calls = st.calls ++ X ∧ ∀ r ∈ X, r.err = none := by
  match args with
  | [] => exact ⟨[], by simp [getCmd]⟩
  | [a] => exact ⟨[], by simp [getCmd]⟩
  | a :: b :: c :: rest => exact ⟨[], by simp [getCmd]⟩
  | [kind, name] =>
    cases hs : env.IstioConfig kind with
    | none => exact ⟨[], by simp [getCmd, setup_unknown env kind name st hs]⟩
    | some s =>
      refine ⟨[{ call := .get ⟨kind, name, effectiveNamespace st⟩, err := none }], ?_, by simp⟩
      simp only [getCmd, setup_known env kind name st s hs, clientGet]
      cases hg : (env.Get ⟨kind, name, effectiveNamespace st⟩ st.store).1 with
      | none => rfl
      | some item =>
        cases hy : env.ToYAML s item with
        | error e => simp [hy]
        | ok yaml => simp [hy, print]

theorem listCmd_calls (env : Env D Msg Spec E σ) (args : List String)
    (st : State D Msg E σ) :
    ∃ X, (listCmd env args st).2.calls = st.calls ++ X ∧
      ((listCmd env args st).1 = none → ∀ r ∈ X, r.err = none) := by
  match args with
  | [] => exact ⟨[], by simp [listCmd]⟩
  | a :: b :: rest => exact ⟨[], by simp [listCmd]⟩
  | [kind] =>
    cases hs : env.IstioConfig kind with
    | none => exact ⟨[], by simp [listCmd, setup_unknown env kind "" st hs]⟩
    | some s =>
      simp only [listCmd, setup_known env kind "" st s hs, clientList]
      cases hl : (env.List kind (effectiveNamespace st) st.store).1 with
      | error e =>
        exact ⟨[{ call := .list kind (effectiveNamespace st), err := some e }], rfl,
          fun h => by cases h⟩
      | ok items =>
        refine ⟨[{ call := .list kind (effectiveNamespace st), err := none }], ?_, by simp⟩
        simp only []
        rw [(listLoop_calls env items _).1]

theorem effectiveNamespace_of_eq (st st1 : State D Msg E σ)
    (h : st1.Namespace = effectiveNamespace st) :
    effectiveNamespace st1 = effectiveNamespace st := by
  have hne := effectiveNamespace_ne_empty st
  rw [← h] at hne
  rw [← h]
  unfold effectiveNamespace
  simp [hne]

/-- What a write loop over items of known kinds does to the store: when the client
accepts every write, the loop returns nil, the store is the one after all the writes and
each write is in the trace once, in order; when the client accepts the writes `pre` and
returns the error `e` for the next one, the loop returns `e`, the store is the one that
failing call left, and the trace ends with that call. -/
theorem writeLoop_run {α : Type} (env : Env D Msg Spec E σ)
    (op : Key → α → σ → Option E × σ) (mk : Key → α → Call Msg) (verb : String) :
    ∀ (items : List (String × String × α)) (st : State D Msg E σ),
      (∀ it ∈ items, env.IstioConfig it.1 ≠ none) →
      (allSucceed op (items.map (fun it =>
          ((⟨it.1, it.2.1, effectiveNamespace st⟩ : Key), it.2.2))) st.store = true →
        (writeLoop env op mk verb items st).1 = none ∧
        (writeLoop env op mk verb items st).2.store = storeAfter op (items.map (fun it =>
          ((⟨it.1, it.2.1, effectiveNamespace st⟩ : Key), it.2.2))) st.store ∧
        (writeLoop env op mk verb items st).2.calls = st.calls ++ items.map (fun it =>
          { call := mk ⟨it.1, it.2.1, effectiveNamespace st⟩ it.2.2, err := none })) ∧
      (∀ pre it post e, items = pre ++ it :: post →
        allSucceed op (pre.map (fun it =>
          ((⟨it.1, it.2.1, effectiveNamespace st⟩ : Key), it.2.2))) st.store = true →
        (op ⟨it.1, it.2.1, effectiveNamespace st⟩ it.2.2 (storeAfter op (pre.map (fun it =>
          ((⟨it.1, it.2.1, effectiveNamespace st⟩ : Key), it.2.2))) st.store)).1 = some e →
        (writeLoop env op mk verb items st).1 = some (.passed e) ∧
        (writeLoop env op mk verb items st).2.store =
          (op ⟨it.1, it.2.1, effectiveNamespace st⟩ it.2.2 (storeAfter op (pre.map (fun it =>
            ((⟨it.1, it.2.1, effectiveNamespace st⟩ : Key), it.2.2))) st.store)).2 ∧
        (writeLoop env op mk verb items st).2.calls = st.calls ++ pre.map (fun it =>
          { call := mk ⟨it.1, it.2.1, effectiveNamespace st⟩ it.2.2, err := none })
          ++ [{ call := mk ⟨it.1, it.2.1, effectiveNamespace st⟩ it.2.2, err := some e }]) := by
  intro items
  induction items with
  | nil =>
    intro st _
    refine ⟨fun _ => by simp [writeLoop, storeAfter], ?_⟩
    intro pre it post e h
    simp at h
  | cons y ys ih =>
    intro st hk
    obtain ⟨kind, name, a⟩ := y
    have hkind : env.IstioConfig kind ≠ none := hk (kind, name, a) (List.mem_cons_self _ _)
    obtain ⟨s, hs⟩ := Option.ne_none_iff_exists'.mp hkind
    have hrest : ∀ it ∈ ys, env.IstioConfig it.1 ≠ none :=
      fun it hit => hk it (List.mem_cons_of_mem _ hit)
    simp only [writeLoop, setup_known env kind name st s hs, clientWrite, List.map_cons,
      allSucceed, storeAfter]
    cases hop : (op ⟨kind, name, effectiveNamespace st⟩ a st.store).1 with
    | some e0 =>
      refine ⟨fun h => by simp at h, ?_⟩
      intro pre it post e hsplit hpre hfail
      cases pre with
      | nil =>
        simp only [List.nil_append, List.cons.injEq] at hsplit
        obtain ⟨hit, _⟩ := hsplit
        subst hit
        simp only [List.map_nil, storeAfter] at hfail ⊢
        rw [hop] at hfail
        cases hfail
        simp
      | cons p pre1 =>
        simp only [List.cons_append, List.cons.injEq] at hsplit
        obtain ⟨hp, _⟩ := hsplit
        subst hp
        simp [allSucceed, hop] at hpre
    | none =>
      simp only [Option.isNone_none, Bool.true_and]
      generalize hst1 : print (verb ++ kind ++ " " ++ name ++ "\n") _ = st1
      have hN : st1.Namespace = effectiveNamespace st := by rw [← hst1]; rfl
      have hC : st1.calls = st.calls ++ [{ call := mk ⟨kind, name, effectiveNamespace st⟩ a,
                                           err := none }] := by rw [← hst1]; rfl
      have hS : st1.store = (op ⟨kind, name, effectiveNamespace st⟩ a st.store).2 := by
        rw [← hst1]; rfl
      have hE := effectiveNamespace_of_eq st st1 hN
      have ih1 := ih st1 hrest
      rw [hE, hC, hS] at ih1
      refine ⟨?_, ?_⟩
      · intro hall
        obtain ⟨h1, h2, h3⟩ := ih1.1 hall
        exact ⟨h1, h2, by rw [h3]; simp⟩
      · intro pre it post e hsplit hpre hfail
        cases pre with
        | nil =>
          simp only [List.nil_append, List.cons.injEq] at hsplit
          obtain ⟨hit, _⟩ := hsplit
          subst hit
          simp only [List.map_nil, storeAfter] at hfail
          rw [hop] at hfail
          cases hfail
        | cons p pre1 =>
          simp only [List.cons_append, List.cons.injEq] at hsplit
          obtain ⟨hp, hys⟩ := hsplit
          subst hp
          simp only [List.map_cons, allSucceed, hop, Option.isNone_none, Bool.true_and,
            storeAfter] at hpre hfail ⊢
          obtain ⟨h1, h2, h3⟩ := ih1.2 pre1 it post e hys hpre hfail
          exact ⟨h1, h2, by rw [h3]; simp⟩

/-- A write loop that returns nil was given only known kinds and had every write
accepted by the client. -/
theorem writeLoop_none_allSucceed {α : Type} (env : Env D Msg Spec E σ)
    (op : Key → α → σ → Option E × σ) (mk : Key → α → Call Msg) (verb : String) :
    ∀ (items : List (String × String × α)) (st : State D Msg E σ),
      (writeLoop env op mk verb items st).1 = none →
      allSucceed op (items.map (fun it =>
        ((⟨it.1, it.2.1, effectiveNamespace st⟩ : Key), it.2.2))) st.store = true := by
  intro items
  induction items with
  | nil => intro st _; rfl
  | cons y ys ih =>
    intro st h
    obtain ⟨kind, name, a⟩ := y
    cases hs : env.IstioConfig kind with
    | none => simp [writeLoop, setup_unknown env kind name st hs] at h
    | some s =>
      simp only [writeLoop, setup_known env kind name st s hs, clientWrite] at h
      simp only [List.map_cons, allSucceed]
      cases hop : (op ⟨kind, name, effectiveNamespace st⟩ a st.store).1 with
      | some e0 => simp [hop] at h
      | none =>
        simp only [hop] at h
        simp only [Option.isNone_none, Bool.true_and]
        generalize hst1 : print (verb ++ kind ++ " " ++ name ++ "\n") _ = st1 at h
        have hN : st1.Namespace = effectiveNamespace st := by rw [← hst1]; rfl
        have hS : st1.store = (op ⟨kind, name, effectiveNamespace st⟩ a st.store).2 := by
          rw [← hst1]; rfl
        have hE := effectiveNamespace_of_eq st st1 hN
        have ih1 := ih st1 h
        rw [hE, hS] at ih1
        exact ih1

/-- The writes asked of the client either all succeed, or there is a first one that
fails after the ones before it succeeded. -/
theorem allSucceed_or_first_failure {α β : Type} (op : Key → α → σ → Option E × σ)
    (g : β → Key × α) :
    ∀ (xs : List β) (s : σ),
      allSucceed op (xs.map g) s = true ∨
      ∃ pre x post e, xs = pre ++ x :: post ∧ allSucceed op (pre.map g) s = true ∧
        (op (g x).1 (g x).2 (storeAfter op (pre.map g) s)).1 = some e := by
  intro xs
  induction xs with
  | nil => intro s; left; rfl
  | cons x xs ih =>
    intro s
    cases hop : (op (g x).1 (g x).2 s).1 with
    | some e => exact Or.inr ⟨[], x, xs, e, rfl, rfl, hop⟩
    | none =>
      rcases ih (op (g x).1 (g x).2 s).2 with h | ⟨pre, y, post, e, hsplit, hpre, hfail⟩
      · left
        show ((op (g x).1 (g x).2 s).1.isNone && allSucceed op (xs.map g) _) = true
        simp [hop, h]
      · right
        refine ⟨x :: pre, y, post, e, by simp [hsplit], ?_, hfail⟩
        show ((op (g x).1 (g x).2 s).1.isNone && allSucceed op (pre.map g) _) = true
        simp [hop, hpre]

/-- The run lemma for a loop over `xs.map f`, stated along `xs`. -/
theorem writeLoop_run_map {α β : Type} (env : Env D Msg Spec E σ)
    (op : Key → α → σ → Option E × σ) (mk : Key → α → Call Msg) (verb : String)
    (f : β → String × String × α) (xs : List β) (st : State D Msg E σ)
    (hk : ∀ x ∈ xs, env.IstioConfig (f x).1 ≠ none) :
    (allSucceed op (xs.map (fun x => (keyOf st (f x).1 (f x).2.1, (f x).2.2))) st.store = true →
      (writeLoop env op mk verb (xs.map f) st).1 = none ∧
      (writeLoop env op mk verb (xs.map f) st).2.store =
        storeAfter op (xs.map (fun x => (keyOf st (f x).1 (f x).2.1, (f x).2.2))) st.store ∧
      (writeLoop env op mk verb (xs.map f) st).2.calls = st.calls ++ xs.map (fun x =>
        { call := mk (keyOf st (f x).1 (f x).2.1) (f x).2.2, err := none })) ∧
    (∀ pre x post e, xs = pre ++ x :: post →
      allSucceed op (pre.map (fun x => (keyOf st (f x).1 (f x).2.1, (f x).2.2))) st.store =
        true →
      (op (keyOf st (f x).1 (f x).2.1) (f x).2.2 (storeAfter op
        (pre.map (fun x => (keyOf st (f x).1 (f x).2.1, (f x).2.2))) st.store)).1 = some e →
      (writeLoop env op mk verb (xs.map f) st).1 = some (.passed e) ∧
      (writeLoop env op mk verb (xs.map f) st).2.store =
        (op (keyOf st (f x).1 (f x).2.1) (f x).2.2 (storeAfter op
          (pre.map (fun x => (keyOf st (f x).1 (f x).2.1, (f x).2.2))) st.store)).2 ∧
      (writeLoop env op mk verb (xs.map f) st).2.calls = st.calls ++ pre.map (fun x =>
        { call := mk (keyOf st (f x).1 (f x).2.1) (f x).2.2, err := none })
        ++ [{ call := mk (keyOf st (f x).1 (f x).2.1) (f x).2.2, err := some e }]) := by
  have hk2 : ∀ it ∈ xs.map f, env.IstioConfig it.1 ≠ none := by
    intro it hit
    obtain ⟨x, hx, rfl⟩ := List.mem_map.mp hit
    exact hk x hx
  have run := writeLoop_run env op mk verb (xs.map f) st hk2
  refine ⟨?_, ?_⟩
  · intro hall
    have h := run.1 (by rw [List.map_map]; exact hall)
    rw [List.map_map, List.map_map] at h
    exact h
  · intro pre x post e hsplit hpre hfail
    have h := run.2 (pre.map f) (f x) (post.map f) e (by simp [hsplit])
      (by rw [List.map_map]; exact hpre) (by rw [List.map_map]; exact hfail)
    rw [List.map_map, List.map_map] at h
    exact h

theorem postCmd_none_inv (env : Env D Msg Spec E σ) (args : List String)
    (st : State D Msg E σ) (h : (postCmd env args st).1 = none) :
    ∃ varr, readInputs env st = .ok varr ∧
      allSucceed env.Post
        (varr.map (fun v => (keyOf st v.Type_ v.Name, v.ParsedSpec))) st.store = true := by
  by_cases ha : args.length ≠ 0
  · simp [postCmd, ha] at h
  · cases hr : readInputs env st with
    | error err => simp [postCmd, ha, hr] at h
    | ok varr =>
      by_cases hv : varr.length = 0
      · simp [postCmd, ha, hr, hv] at h
      · have hcmd : postCmd env args st = postLoop env varr st := by
          simp [postCmd, ha, hr, hv]
        rw [hcmd, postLoop_eq_writeLoop] at h
        have hall := writeLoop_none_allSucceed _ _ _ _ _ _ h
        rw [List.map_map] at hall
        exact ⟨varr, rfl, hall⟩

theorem putCmd_none_inv (env : Env D Msg Spec E σ) (args : List String)
    (st : State D Msg E σ) (h : (putCmd env args st).1 = none) :
    ∃ varr, readInputs env st = .ok varr ∧
      allSucceed env.Put
        (varr.map (fun v => (keyOf st v.Type_ v.Name, v.ParsedSpec))) st.store = true := by
  by_cases ha : args.length ≠ 0
  · simp [putCmd, ha] at h
  · cases hr : readInputs env st with
    | error err => simp [putCmd, ha, hr] at h
    | ok varr =>
      by_cases hv : varr.length = 0
      · simp [putCmd, ha, hr, hv] at h
      · have hcmd : putCmd env args st = putLoop env varr st := by
          simp [putCmd, ha, hr, hv]
        rw [hcmd, putLoop_eq_writeLoop] at h
        have hall := writeLoop_none_allSucceed _ _ _ _ _ _ h
        rw [List.map_map] at hall
        exact ⟨varr, rfl, hall⟩

theorem deleteCmd_none_inv (env : Env D Msg Spec E σ) (args : List String)
    (st : State D Msg E σ) (h : (deleteCmd env args st).1 = none) :
    (st.file = "" → ∃ kind names, args = kind :: names ∧
      allSucceed (fun k (_ : Unit) => env.Delete k)
        (names.map (fun n => (keyOf st kind n, ()))) st.store = true) ∧
    (st.file ≠ "" → ∃ varr, readInputs env st = .ok varr ∧
      allSucceed (fun k (_ : Unit) => env.Delete k)
        (varr.map (fun v => (keyOf st v.Type_ v.Name, ()))) st.store = true) := by
  refine ⟨?_, ?_⟩
  · intro hf
    match args with
    | [] => simp [deleteCmd, hf] at h
    | [a] => simp [deleteCmd, hf] at h
    | kind :: name :: rest =>
      have hcmd : deleteCmd env (kind :: name :: rest) st =
          deleteArgsLoop env kind (name :: rest) st := by
        simp [deleteCmd, hf]
      rw [hcmd, deleteArgsLoop_eq_writeLoop] at h
      have hall := writeLoop_none_allSucceed _ _ _ _ _ _ h
      rw [List.map_map] at hall
      exact ⟨kind, name :: rest, rfl, hall⟩
  · intro hf
    by_cases ha : args.length ≠ 0
    · simp [deleteCmd, hf, ha] at h
    · cases hr : readInputs env st with
      | error err => simp [deleteCmd, hf, ha, hr] at h
      | ok varr =>
        by_cases hv : varr.length = 0
        · simp [deleteCmd, hf, ha, hr, hv] at h
        · have hcmd : deleteCmd env args st = deleteLoop env varr st := by
            simp [deleteCmd, hf, ha, hr, hv]
          rw [hcmd, deleteLoop_eq_writeLoop] at h
          have hall := writeLoop_none_allSucceed _ _ _ _ _ _ h
          rw [List.map_map] at hall
          exact ⟨varr, rfl, hall⟩

theorem getCmd_none_inv (env : Env D Msg Spec E σ) (args : List String)
    (st : State D Msg E σ) (h : (getCmd env args st).1 = none) :
    ∃ kind name s item yaml, args = [kind, name] ∧ env.IstioConfig kind = some s ∧
      (env.Get (keyOf st kind name) st.store).1 = some item ∧
      env.ToYAML s item = .ok yaml := by
  match args with
  | [] => simp [getCmd] at h
  | [a] => simp [getCmd] at h
  | a :: b :: c :: rest => simp [getCmd] at h
  | [kind, name] =>
    cases hs : env.IstioConfig kind with
    | none => simp [getCmd, setup_unknown env kind name st hs] at h
    | some s =>
      simp only [getCmd, setup_known env kind name st s hs, clientGet] at h
      cases hg : (env.Get ⟨kind, name, effectiveNamespace st⟩ st.store).1 with
      | none => simp [hg] at h
      | some item =>
        cases hy : env.ToYAML s item with
        | error e => simp [hg, hy] at h
        | ok yaml => exact ⟨kind, name, s, item, yaml, rfl, hs, hg, hy⟩

theorem listCmd_none_inv (env : Env D Msg Spec E σ) (args : List String)
    (st : State D Msg E σ) (h : (listCmd env args st).1 = none) :
    ∃ kind s items, args = [kind] ∧ env.IstioConfig kind = some s ∧
      (env.List kind (effectiveNamespace st) st.store).1 = .ok items := by
  match args with
  | [] => simp [listCmd] at h
  | a :: b :: rest => simp [listCmd] at h
  | [kind] =>
    cases hs : env.IstioConfig kind with
    | none => simp [listCmd, setup_unknown env kind "" st hs] at h
    | some s =>
      simp only [listCmd, setup_known env kind "" st s hs, clientList] at h
      cases hl : (env.List kind (effectiveNamespace st) st.store).1 with
      | error e => simp [hl] at h
      | ok items => exact ⟨kind, s, items, rfl, hs, hl⟩

end Lemmas

/-! ### The properties of the commands -/

section Properties

variable {D Msg Spec E σ : Type}

/-- C1. `create`, `replace` and `delete -f` write nothing to the store unless they got
no positional argument and the whole input parsed into a non-empty list: with an
argument, with input that cannot be opened, with an empty stream, or with a stream that
holds a document that fails to decode, has an unknown type or is rejected by `FromJSON`
(wherever it stands in the stream), the command returns an error and the trace of store
calls and the store are as before. -/
theorem create_replace_delete_write_nothing_on_bad_input (env : Env D Msg Spec E σ)
    (args : List String) (st : State D Msg E σ)
    (h : args ≠ [] ∨ (∃ e, openInput env st = .error e) ∨
      (∃ docs, openInput env st = .ok docs ∧ (docs = [] ∨ ∃ d ∈ docs, badDocument env d))) :
    failsWithoutWrite (postCmd env args st) st ∧
    failsWithoutWrite (putCmd env args st) st ∧
    (st.file ≠ "" → failsWithoutWrite (deleteCmd env args st) st) := by
  have h2 : args ≠ [] ∨ (∃ err, readInputs env st = .error err) ∨ readInputs env st = .ok [] := by
    rcases h with h | h
    · exact Or.inl h
    · exact Or.inr (readInputs_bad env st h)
  exact ⟨postCmd_no_write env args st h2, putCmd_no_write env args st h2,
    fun hf => deleteCmd_file_no_write env args st hf h2⟩

/-- C1 at a concrete input: two valid documents followed by one of an unknown type, read
from the file `rules.yaml`. -/
theorem create_replace_delete_write_nothing_on_bad_input_witness :
    badDocument (exampleEnv [exampleDoc "route-rule" "r1" "a", exampleDoc "route-rule" "r2" "b",
        exampleDoc "gateway" "g" "c"]) (exampleDoc "gateway" "g" "c") ∧
    failsWithoutWrite
      (postCmd (exampleEnv [exampleDoc "route-rule" "r1" "a", exampleDoc "route-rule" "r2" "b",
        exampleDoc "gateway" "g" "c"]) [] (exampleState "rules.yaml" []))
      (exampleState "rules.yaml" []) ∧
    failsWithoutWrite
      (putCmd (exampleEnv [exampleDoc "route-rule" "r1" "a", exampleDoc "route-rule" "r2" "b",
        exampleDoc "gateway" "g" "c"]) [] (exampleState "rules.yaml" []))
      (exampleState "rules.yaml" []) ∧
    failsWithoutWrite
      (deleteCmd (exampleEnv [exampleDoc "route-rule" "r1" "a", exampleDoc "route-rule" "r2" "b",
        exampleDoc "gateway" "g" "c"]) [] (exampleState "rules.yaml" []))
      (exampleState "rules.yaml" []) := by
  have hbad : badDocument (exampleEnv [exampleDoc "route-rule" "r1" "a",
      exampleDoc "route-rule" "r2" "b", exampleDoc "gateway" "g" "c"])
      (exampleDoc "gateway" "g" "c") :=
    Or.inr (Or.inr (Or.inl ⟨_, rfl, rfl⟩))
  have h := create_replace_delete_write_nothing_on_bad_input
    (exampleEnv [exampleDoc "route-rule" "r1" "a", exampleDoc "route-rule" "r2" "b",
      exampleDoc "gateway" "g" "c"]) [] (exampleState "rules.yaml" [])
    (Or.inr (Or.inr ⟨_, rfl, Or.inr ⟨_, by simp, hbad⟩⟩))
  exact ⟨hbad, h.1, h.2.1, h.2.2 (by decide)⟩

/-- C2. For a non-empty parsed list of documents `varr`, `create` calls `Client.Post` on
the documents in input order, each with the key of its type, its name and the namespace
and with its `ParsedSpec`. If the client accepts every `Post`, the command returns nil,
the store is the one after all the `Post`s, and each document is posted exactly once. If
the client accepts the `Post`s of `pre` and returns the error `e` for the `Post` of `v`,
the command returns `e`, the store is the one that failing `Post` left, the documents of
`pre` have been posted once and those after `v` never. One of the two is always the
case. -/
theorem create_posts_in_order_until_first_failure (env : Env D Msg Spec E σ)
    (st : State D Msg E σ) (varr : List (inputDoc Spec Msg))
    (hread : readInputs env st = .ok varr) (hne : varr ≠ []) :
    (allSucceed env.Post
        (varr.map (fun v => (keyOf st v.Type_ v.Name, v.ParsedSpec))) st.store = true →
      (postCmd env [] st).1 = none ∧
      (postCmd env [] st).2.store = storeAfter env.Post
        (varr.map (fun v => (keyOf st v.Type_ v.Name, v.ParsedSpec))) st.store ∧
      (postCmd env [] st).2.calls = st.calls ++ varr.map (fun v =>
        { call := .post (keyOf st v.Type_ v.Name) v.ParsedSpec, err := none })) ∧
    (∀ pre v rest e, varr = pre ++ v :: rest →
      allSucceed env.Post
        (pre.map (fun v => (keyOf st v.Type_ v.Name, v.ParsedSpec))) st.store = true →
      (env.Post (keyOf st v.Type_ v.Name) v.ParsedSpec (storeAfter env.Post
        (pre.map (fun v => (keyOf st v.Type_ v.Name, v.ParsedSpec))) st.store)).1 = some e →
      (postCmd env [] st).1 = some (.passed e) ∧
      (postCmd env [] st).2.store =
        (env.Post (keyOf st v.Type_ v.Name) v.ParsedSpec (storeAfter env.Post
          (pre.map (fun v => (keyOf st v.Type_ v.Name, v.ParsedSpec))) st.store)).2 ∧
      (postCmd env [] st).2.calls = st.calls ++ pre.map (fun v =>
        { call := .post (keyOf st v.Type_ v.Name) v.ParsedSpec, err := none })
        ++ [{ call := .post (keyOf st v.Type_ v.Name) v.ParsedSpec, err := some e }]) ∧
    (allSucceed env.Post
        (varr.map (fun v => (keyOf st v.Type_ v.Name, v.ParsedSpec))) st.store = true ∨
      ∃ pre v rest e, varr = pre ++ v :: rest ∧
        allSucceed env.Post
          (pre.map (fun v => (keyOf st v.Type_ v.Name, v.ParsedSpec))) st.store = true ∧
        (env.Post (keyOf st v.Type_ v.Name) v.ParsedSpec (storeAfter env.Post
          (pre.map (fun v => (keyOf st v.Type_ v.Name, v.ParsedSpec))) st.store)).1 =
          some e) := by
  have hlen : ¬ varr.length = 0 := fun h => hne (List.length_eq_zero.mp h)
  have hcmd : postCmd env [] st = postLoop env varr st := by
    simp [postCmd, hread, hlen]
  rw [hcmd, postLoop_eq_writeLoop]
  have run := writeLoop_run_map env env.Post Call.post "Posted "
    (fun v => (v.Type_, v.Name, v.ParsedSpec)) varr st (readInputs_kinds env st varr hread)
  exact ⟨run.1, run.2, allSucceed_or_first_failure env.Post
    (fun v => (keyOf st v.Type_ v.Name, v.ParsedSpec)) varr st.store⟩

/-- C2 at a concrete input: of three documents the store refuses the second; the first
is in the store, the third was never posted, and the command returns the error. -/
theorem create_posts_in_order_until_first_failure_witness :
    readInputs (exampleEnv threeDocs) (exampleState "" []) = .ok threeParsed ∧
    threeParsed ≠ [] ∧
    (postCmd (exampleEnv threeDocs) [] (exampleState "" [])).1 =
      some (.passed "rejected by the store") ∧
    (postCmd (exampleEnv threeDocs) [] (exampleState "" [])).2.store =
      [(⟨"route-rule", "r1", "default"⟩, "a")] ∧
    (postCmd (exampleEnv threeDocs) [] (exampleState "" [])).2.calls =
      [⟨.post ⟨"route-rule", "r1", "default"⟩ "a", none⟩,
       ⟨.post ⟨"destination-policy", "p", "default"⟩ "rejected",
        some "rejected by the store"⟩] :=
  ⟨rfl, by simp [threeParsed],
    (create_posts_in_order_until_first_failure (exampleEnv threeDocs) (exampleState "" [])
      threeParsed rfl (by simp [threeParsed])).2.1
      [⟨"route-rule", "r1", "a", "a"⟩] ⟨"destination-policy", "p", "rejected", "rejected"⟩
      [⟨"route-rule", "r2", "b", "b"⟩] "rejected by the store" rfl rfl rfl⟩

/-- C7. `setup kind name` returns an error exactly when `kind` is not a key of the
registry. On success `schema` is the registry's descriptor of `kind`, `key` is the kind,
the name and the namespace flag, or `default` when the flag is empty, the flag holds that
same namespace, and the namespace of the key is not empty. On failure `key` and the
namespace flag are unchanged. -/
theorem setup_sets_key_iff_kind_known (env : Env D Msg Spec E σ) (kind name : String)
    (st : State D Msg E σ) :
    ((setup env kind name st).1.isSome = true ↔ env.IstioConfig kind = none) ∧
    (∀ s, env.IstioConfig kind = some s →
      (setup env kind name st).1 = none ∧
      (setup env kind name st).2.schema = s ∧
      (setup env kind name st).2.key =
        ⟨kind, name, if st.Namespace = "" then "default" else st.Namespace⟩ ∧
      (setup env kind name st).2.Namespace = (setup env kind name st).2.key.Namespace ∧
      (setup env kind name st).2.key.Namespace ≠ "") ∧
    (env.IstioConfig kind = none →
      (setup env kind name st).2.key = st.key ∧
      (setup env kind name st).2.Namespace = st.Namespace) := by
  refine ⟨?_, ?_, ?_⟩
  · cases hs : env.IstioConfig kind with
    | none => simp [setup_unknown env kind name st hs]
    | some s => simp [setup_known env kind name st s hs]
  · intro s hs
    rw [setup_known env kind name st s hs]
    exact ⟨rfl, rfl, rfl, rfl, effectiveNamespace_ne_empty st⟩
  · intro hs
    rw [setup_unknown env kind name st hs]
    exact ⟨rfl, rfl⟩

/-- C10. Every document of a list that `readInputs` returned has a type of the registry, so
`setup` on it returns nil in every state; hence the loops of `create`, `replace` and
`delete -f` over such a list stop with an error only with the error of a store call
made in that run. -/
theorem setup_succeeds_on_parsed_documents (env : Env D Msg Spec E σ)
    (st : State D Msg E σ) (varr : List (inputDoc Spec Msg))
    (hread : readInputs env st = .ok varr) :
    (∀ v ∈ varr, ∀ st1 : State D Msg E σ, (setup env v.Type_ v.Name st1).1 = none) ∧
    (∀ (st1 : State D Msg E σ) (err : CmdError E),
      ((postLoop env varr st1).1 = some err →
        ∃ e, err = .passed e ∧ ∃ r ∈ newCalls st1 (postLoop env varr st1).2, r.err = some e) ∧
      ((putLoop env varr st1).1 = some err →
        ∃ e, err = .passed e ∧ ∃ r ∈ newCalls st1 (putLoop env varr st1).2, r.err = some e) ∧
      ((deleteLoop env varr st1).1 = some err →
        ∃ e, err = .passed e ∧
          ∃ r ∈ newCalls st1 (deleteLoop env varr st1).2, r.err = some e)) := by
  have hk := readInputs_kinds env st varr hread
  have key : ∀ {α : Type} (op : Key → α → σ → Option E × σ) (mk : Key → α → Call Msg)
      (verb : String) (f : inputDoc Spec Msg → String × String × α)
      (_ : ∀ v, (f v).1 = v.Type_) (st1 : State D Msg E σ) (err : CmdError E),
      (writeLoop env op mk verb (varr.map f) st1).1 = some err →
      ∃ e, err = .passed e ∧
        ∃ r ∈ newCalls st1 (writeLoop env op mk verb (varr.map f) st1).2, r.err = some e := by
    intro α op mk verb f hf st1 err hres
    rcases writeLoop_trace_map env op mk verb f varr st1
      (fun v hv => by rw [hf v]; exact hk v hv) with h | ⟨pre, v, post, e, _, hr, hcalls⟩
    · rw [h.1] at hres
      cases hres
    · rw [hr] at hres
      refine ⟨e, (Option.some.inj hres).symm, ?_⟩
      rw [List.append_assoc] at hcalls
      rw [newCalls_append st1 _ _ hcalls]
      exact ⟨_, List.mem_append_right _ (List.mem_singleton_self _), rfl⟩
  refine ⟨?_, ?_⟩
  · intro v hv st1
    obtain ⟨s, hs⟩ := Option.ne_none_iff_exists'.mp (hk v hv)
    rw [setup_known env v.Type_ v.Name st1 s hs]
  · intro st1 err
    refine ⟨?_, ?_, ?_⟩
    · rw [postLoop_eq_writeLoop]
      exact key _ _ _ _ (fun _ => rfl) st1 err
    · rw [putLoop_eq_writeLoop]
      exact key _ _ _ _ (fun _ => rfl) st1 err
    · rw [deleteLoop_eq_writeLoop]
      exact key _ _ _ _ (fun _ => rfl) st1 err

/-- C10 at a concrete input: two documents read from standard input. -/
theorem setup_succeeds_on_parsed_documents_witness :
    readInputs (exampleEnv [exampleDoc "route-rule" "r1" "a",
        exampleDoc "destination-policy" "p" "b"]) (exampleState "" []) =
      .ok [⟨"route-rule", "r1", "a", "a"⟩, ⟨"destination-policy", "p", "b", "b"⟩] ∧
    (setup (exampleEnv [exampleDoc "route-rule" "r1" "a",
        exampleDoc "destination-policy" "p" "b"]) "destination-policy" "p"
      (exampleState "" [])).1 = none :=
  ⟨rfl,
    (setup_succeeds_on_parsed_documents
      (exampleEnv [exampleDoc "route-rule" "r1" "a", exampleDoc "destination-policy" "p" "b"])
      (exampleState "" [])
      [⟨"route-rule", "r1", "a", "a"⟩, ⟨"destination-policy", "p", "b", "b"⟩] rfl).1
      ⟨"destination-policy", "p", "b", "b"⟩ (by simp) (exampleState "" [])⟩

/-- C8. `delete` without `-f`: with fewer than two arguments it returns an error and
calls nothing. With arguments `kind, name, ...` of an unknown kind it returns the error
of `setup` and calls nothing. With a known kind it calls `Client.Delete` on the names in
order, each with the key of the kind, the name and the namespace. If the client accepts
every `Delete`, the command returns nil, the store is the one after all the `Delete`s and
each name is deleted exactly once. If the client accepts the `Delete`s of `pre` and
returns the error `e` for the `Delete` of `n`, the command returns `e`, the store is the
one that failing `Delete` left (the names of `pre` stay deleted) and the names after `n`
are never passed to `Delete`. One of the two is always the case. With `-f`, any
positional argument gives an error and no call. -/
theorem delete_by_name_in_order_until_first_failure (env : Env D Msg Spec E σ)
    (args : List String) (st : State D Msg E σ) :
    (st.file = "" → args.length < 2 → failsWithoutWrite (deleteCmd env args st) st) ∧
    (st.file = "" → ∀ kind name rest, args = kind :: name :: rest →
      env.IstioConfig kind = none →
      (deleteCmd env args st).1 = some (.unknownConfigurationType kind env.Kinds) ∧
      (deleteCmd env args st).2.calls = st.calls ∧
      (deleteCmd env args st).2.store = st.store) ∧
    (st.file = "" → ∀ kind name rest, args = kind :: name :: rest →
      env.IstioConfig kind ≠ none →
      (allSucceed (fun k (_ : Unit) => env.Delete k)
          ((name :: rest).map (fun n => (keyOf st kind n, ()))) st.store = true →
        (deleteCmd env args st).1 = none ∧
        (deleteCmd env args st).2.store = storeAfter (fun k (_ : Unit) => env.Delete k)
          ((name :: rest).map (fun n => (keyOf st kind n, ()))) st.store ∧
        (deleteCmd env args st).2.calls = st.calls ++ (name :: rest).map (fun n =>
          { call := .delete (keyOf st kind n), err := none })) ∧
      (∀ pre n post e, name :: rest = pre ++ n :: post →
        allSucceed (fun k (_ : Unit) => env.Delete k)
          (pre.map (fun n => (keyOf st kind n, ()))) st.store = true →
        (env.Delete (keyOf st kind n) (storeAfter (fun k (_ : Unit) => env.Delete k)
          (pre.map (fun n => (keyOf st kind n, ()))) st.store)).1 = some e →
        (deleteCmd env args st).1 = some (.passed e) ∧
        (deleteCmd env args st).2.store =
          (env.Delete (keyOf st kind n) (storeAfter (fun k (_ : Unit) => env.Delete k)
            (pre.map (fun n => (keyOf st kind n, ()))) st.store)).2 ∧
        (deleteCmd env args st).2.calls = st.calls ++ pre.map (fun n =>
          { call := .delete (keyOf st kind n), err := none })
          ++ [{ call := .delete (keyOf st kind n), err := some e }]) ∧
      (allSucceed (fun k (_ : Unit) => env.Delete k)
          ((name :: rest).map (fun n => (keyOf st kind n, ()))) st.store = true ∨
        ∃ pre n post e, name :: rest = pre ++ n :: post ∧
          allSucceed (fun k (_ : Unit) => env.Delete k)
            (pre.map (fun n => (keyOf st kind n, ()))) st.store = true ∧
          (env.Delete (keyOf st kind n) (storeAfter (fun k (_ : Unit) => env.Delete k)
            (pre.map (fun n => (keyOf st kind n, ()))) st.store)).1 = some e)) ∧
    (st.file ≠ "" → args ≠ [] → failsWithoutWrite (deleteCmd env args st) st) := by
  refine ⟨?_, ?_, ?_, ?_⟩
  · intro hf hlen
    unfold deleteCmd failsWithoutWrite
    match args, hlen with
    | [], _ => simp [hf]
    | [a], _ => simp [hf]
    | a :: b :: rest, h => simp at h; omega
  · intro hf kind name rest hargs hk
    subst hargs
    simp [deleteCmd, hf, deleteArgsLoop, setup_unknown env kind name st hk]
  · intro hf kind name rest hargs hk
    subst hargs
    have hcmd : deleteCmd env (kind :: name :: rest) st =
        deleteArgsLoop env kind (name :: rest) st := by
      simp [deleteCmd, hf]
    rw [hcmd, deleteArgsLoop_eq_writeLoop]
    have run := writeLoop_run_map env (fun k (_ : Unit) => env.Delete k)
      (fun k _ => Call.delete k) "Deleted " (fun n => (kind, n, ())) (name :: rest) st
      (fun _ _ => hk)
    exact ⟨run.1, run.2, allSucceed_or_first_failure (fun k (_ : Unit) => env.Delete k)
      (fun n => (keyOf st kind n, ())) (name :: rest) st.store⟩
  · intro hf hargs
    unfold deleteCmd failsWithoutWrite
    have : args.length ≠ 0 := fun h => hargs (List.length_eq_zero.mp h)
    simp [hf, this]

/-- C8 at a concrete input: `delete route-rule a missing b` on a store that holds `a` and
`b`: `a` is deleted, the `Delete` of `missing` fails and its error is returned, `b` is
still in the store and was never passed to `Delete`. And `delete` with neither `-f` nor
an argument returns an error without a call, whatever standard input holds. -/
theorem delete_by_name_in_order_until_first_failure_witness :
    ((deleteCmd (exampleEnv []) ["route-rule", "a", "missing", "b"]
      (exampleState "" [(⟨"route-rule", "a", "default"⟩, "x"),
        (⟨"route-rule", "b", "default"⟩, "y")])).1 = some (.passed "not found") ∧
    (deleteCmd (exampleEnv []) ["route-rule", "a", "missing", "b"]
      (exampleState "" [(⟨"route-rule", "a", "default"⟩, "x"),
        (⟨"route-rule", "b", "default"⟩, "y")])).2.store =
      [(⟨"route-rule", "b", "default"⟩, "y")] ∧
    (deleteCmd (exampleEnv []) ["route-rule", "a", "missing", "b"]
      (exampleState "" [(⟨"route-rule", "a", "default"⟩, "x"),
        (⟨"route-rule", "b", "default"⟩, "y")])).2.calls =
      [⟨.delete ⟨"route-rule", "a", "default"⟩, none⟩,
       ⟨.delete ⟨"route-rule", "missing", "default"⟩, some "not found"⟩]) ∧
    failsWithoutWrite
      (deleteCmd (exampleEnv [exampleDoc "route-rule" "a" "x"]) []
        (exampleState "" [(⟨"route-rule", "a", "default"⟩, "x")]))
      (exampleState "" [(⟨"route-rule", "a", "default"⟩, "x")]) :=
  ⟨((delete_by_name_in_order_until_first_failure (exampleEnv [])
      ["route-rule", "a", "missing", "b"]
      (exampleState "" [(⟨"route-rule", "a", "default"⟩, "x"),
        (⟨"route-rule", "b", "default"⟩, "y")])).2.2.1 rfl
      "route-rule" "a" ["missing", "b"] rfl (by decide)).2.1
    ["a"] "missing" ["b"] "not found" rfl rfl rfl,
   (delete_by_name_in_order_until_first_failure (exampleEnv [exampleDoc "route-rule" "a" "x"])
      [] (exampleState "" [(⟨"route-rule", "a", "default"⟩, "x")])).1 rfl (by decide)⟩

/-- C9. `get` with any number of arguments other than two returns an error without
calling the store. With two arguments and a known kind it calls `Get` once, on the key
of the kind, the name and the namespace; it returns nil exactly when the store reports
the key and `ToYAML` of the item succeeds, and then prints exactly that YAML; when the
store reports no such key it prints nothing and returns the error "does not exist";
when `ToYAML` fails it prints nothing and returns that error. -/
theorem get_returns_nil_iff_exists_and_renders (env : Env D Msg Spec E σ)
    (args : List String) (st : State D Msg E σ) :
    (args.length ≠ 2 →
      (getCmd env args st).1 = some (.text "provide configuration type and name") ∧
      (getCmd env args st).2.calls = st.calls ∧ (getCmd env args st).2.out = st.out) ∧
    (∀ kind name s, args = [kind, name] → env.IstioConfig kind = some s →
      (getCmd env args st).2.calls =
        st.calls ++ [{ call := .get ⟨kind, name, effectiveNamespace st⟩, err := none }] ∧
      ((getCmd env args st).1 = none ↔
        ∃ item yaml, (env.Get ⟨kind, name, effectiveNamespace st⟩ st.store).1 = some item ∧
          env.ToYAML s item = .ok yaml) ∧
      (∀ item yaml, (env.Get ⟨kind, name, effectiveNamespace st⟩ st.store).1 = some item →
        env.ToYAML s item = .ok yaml →
        (getCmd env args st).1 = none ∧ (getCmd env args st).2.out = st.out ++ [yaml]) ∧
      ((env.Get ⟨kind, name, effectiveNamespace st⟩ st.store).1 = none →
        (getCmd env args st).1 = some (.text "does not exist") ∧
        (getCmd env args st).2.out = st.out) ∧
      (∀ item e, (env.Get ⟨kind, name, effectiveNamespace st⟩ st.store).1 = some item →
        env.ToYAML s item = .error e →
        (getCmd env args st).1 = some (.passed e) ∧ (getCmd env args st).2.out = st.out)) := by
  refine ⟨?_, ?_⟩
  · intro hlen
    match args, hlen with
    | [], _ => simp [getCmd]
    | [a], _ => simp [getCmd]
    | [a, b], h => simp at h
    | a :: b :: c :: rest, _ => simp [getCmd]
  · intro kind name s hargs hs
    subst hargs
    simp only [getCmd, setup_known env kind name st s hs, clientGet]
    cases hg : (env.Get ⟨kind, name, effectiveNamespace st⟩ st.store).1 with
    | none => simp
    | some item =>
      cases hy : env.ToYAML s item with
      | error e =>
        simp [hy]
        constructor
        · intro i y hi
          subst hi
          rw [hy]
          simp
        · intro i e2 hi hy2
          subst hi
          rw [hy] at hy2
          cases hy2
          rfl
      | ok yaml =>
        simp [hy, print]
        constructor
        · intro i y hi hy2
          subst hi
          rw [hy] at hy2
          cases hy2
          rfl
        · intro i e2 hi
          subst hi
          rw [hy]
          simp

/-- C3, as stated, fails for `list`: the store lists one route rule, `ToYAML` of it
fails, and the command prints the error, returns nil and `main` ends with status 0. -/
theorem list_returns_nil_when_yaml_fails :
    ((exampleEnv []).List "route-rule" "default"
        [(⟨"route-rule", "r1", "default"⟩, "unrenderable")]).1 =
      .ok [(⟨"route-rule", "r1", "default"⟩, "unrenderable")] ∧
    (exampleEnv []).ToYAML "RouteRule" "unrenderable" = .error "cannot render" ∧
    (listCmd (exampleEnv []) ["route-rule"]
      (exampleState "" [(⟨"route-rule", "r1", "default"⟩, "unrenderable")])).1 = none ∧
    mainStatus (listCmd (exampleEnv []) ["route-rule"]
      (exampleState "" [(⟨"route-rule", "r1", "default"⟩, "unrenderable")])).1 = 0 ∧
    (listCmd (exampleEnv []) ["route-rule"]
      (exampleState "" [(⟨"route-rule", "r1", "default"⟩, "unrenderable")])).2.out =
      ["cannot render\n", "---\n"] := by
  refine ⟨rfl, rfl, ?_, ?_, ?_⟩ <;> decide

/-- C3, amended. A command that returns nil had every fallible step succeed, except for
`ToYAML` in `list`: for `create`, `replace` and `delete`, the input parsed and the client
accepted every `Post`, `Put` or `Delete` asked of it, so that an error of the store
client on one of these calls always gives a non-nil result; for `get`, the kind is
known, the item exists and `ToYAML` succeeded; for `list`, the kind is known and the
client's `List` succeeded. A failure of `readInputs` (unknown type, `FromJSON`) makes
`create`, `replace` and `delete -f` return an error; an unknown kind makes `get`, `list`
and `delete` return the error of `setup`; a failing `ToYAML` makes `get` return that
error; a failing `List` makes `list` return an error. In `list`, a failing `ToYAML` of a
listed item is not returned: the command prints the text of the error and returns nil.
The status of `main` is not zero exactly when the command returned an error. -/
theorem errors_are_returned_except_yaml_errors_of_list (env : Env D Msg Spec E σ)
    (args : List String) (st : State D Msg E σ) :
    (((postCmd env args st).1 = none →
        ∃ varr, readInputs env st = .ok varr ∧ allSucceed env.Post
          (varr.map (fun v => (keyOf st v.Type_ v.Name, v.ParsedSpec))) st.store = true) ∧
      ((putCmd env args st).1 = none →
        ∃ varr, readInputs env st = .ok varr ∧ allSucceed env.Put
          (varr.map (fun v => (keyOf st v.Type_ v.Name, v.ParsedSpec))) st.store = true) ∧
      ((deleteCmd env args st).1 = none →
        (st.file = "" → ∃ kind names, args = kind :: names ∧
          allSucceed (fun k (_ : Unit) => env.Delete k)
            (names.map (fun n => (keyOf st kind n, ()))) st.store = true) ∧
        (st.file ≠ "" → ∃ varr, readInputs env st = .ok varr ∧
          allSucceed (fun k (_ : Unit) => env.Delete k)
            (varr.map (fun v => (keyOf st v.Type_ v.Name, ()))) st.store = true)) ∧
      ((getCmd env args st).1 = none →
        ∃ kind name s item yaml, args = [kind, name] ∧ env.IstioConfig kind = some s ∧
          (env.Get (keyOf st kind name) st.store).1 = some item ∧
          env.ToYAML s item = .ok yaml) ∧
      ((listCmd env args st).1 = none →
        ∃ kind s items, args = [kind] ∧ env.IstioConfig kind = some s ∧
          (env.List kind (effectiveNamespace st) st.store).1 = .ok items)) ∧
    ((∀ varr, readInputs env st = .ok varr →
        allSucceed env.Post
          (varr.map (fun v => (keyOf st v.Type_ v.Name, v.ParsedSpec))) st.store = false →
        (postCmd env args st).1.isSome = true) ∧
      (∀ varr, readInputs env st = .ok varr →
        allSucceed env.Put
          (varr.map (fun v => (keyOf st v.Type_ v.Name, v.ParsedSpec))) st.store = false →
        (putCmd env args st).1.isSome = true) ∧
      (∀ varr, st.file ≠ "" → readInputs env st = .ok varr →
        allSucceed (fun k (_ : Unit) => env.Delete k)
          (varr.map (fun v => (keyOf st v.Type_ v.Name, ()))) st.store = false →
        (deleteCmd env args st).1.isSome = true) ∧
      (∀ kind names, st.file = "" → args = kind :: names →
        allSucceed (fun k (_ : Unit) => env.Delete k)
          (names.map (fun n => (keyOf st kind n, ()))) st.store = false →
        (deleteCmd env args st).1.isSome = true)) ∧
    (((postCmd env args st).1 = none →
        ∀ r ∈ newCalls st (postCmd env args st).2, r.err = none) ∧
      ((putCmd env args st).1 = none →
        ∀ r ∈ newCalls st (putCmd env args st).2, r.err = none) ∧
      ((getCmd env args st).1 = none →
        ∀ r ∈ newCalls st (getCmd env args st).2, r.err = none) ∧
      ((deleteCmd env args st).1 = none →
        ∀ r ∈ newCalls st (deleteCmd env args st).2, r.err = none) ∧
      ((listCmd env args st).1 = none →
        ∀ r ∈ newCalls st (listCmd env args st).2, r.err = none)) ∧
    (∀ err, readInputs env st = .error err →
      (postCmd env args st).1.isSome = true ∧ (putCmd env args st).1.isSome = true ∧
      (st.file ≠ "" → (deleteCmd env args st).1.isSome = true)) ∧
    (∀ kind, env.IstioConfig kind = none →
      (∀ name, args = [kind, name] →
        (getCmd env args st).1 = some (.unknownConfigurationType kind env.Kinds)) ∧
      (args = [kind] →
        (listCmd env args st).1 = some (.unknownConfigurationType kind env.Kinds)) ∧
      (∀ name rest, st.file = "" → args = kind :: name :: rest →
        (deleteCmd env args st).1 = some (.unknownConfigurationType kind env.Kinds))) ∧
    (∀ kind name s item e, args = [kind, name] → env.IstioConfig kind = some s →
      (env.Get ⟨kind, name, effectiveNamespace st⟩ st.store).1 = some item →
      env.ToYAML s item = .error e → (getCmd env args st).1 = some (.passed e)) ∧
    (∀ kind s e, args = [kind] → env.IstioConfig kind = some s →
      (env.List kind (effectiveNamespace st) st.store).1 = .error e →
      (listCmd env args st).1 = some (.errorListing kind e)) ∧
    (∀ kind s items, args = [kind] → env.IstioConfig kind = some s →
      (env.List kind (effectiveNamespace st) st.store).1 = .ok items →
      (listCmd env args st).1 = none ∧
      ∀ p ∈ items, ∀ e, env.ToYAML s p.2 = .error e →
        (env.errText e ++ "\n") ∈ (listCmd env args st).2.out) ∧
    (∀ r : Option (CmdError E), mainStatus r ≠ 0 ↔ r.isSome = true) := by
  have hsome : ∀ r : Option (CmdError E), ¬ r = none → r.isSome = true := by
    intro r hr
    cases r with
    | none => exact absurd rfl hr
    | some _ => rfl
  refine ⟨⟨postCmd_none_inv env args st, putCmd_none_inv env args st,
    deleteCmd_none_inv env args st, getCmd_none_inv env args st,
    listCmd_none_inv env args st⟩, ⟨?_, ?_, ?_, ?_⟩,
    ⟨postCmd_no_dropped env args st, putCmd_no_dropped env args st, ?_,
    deleteCmd_no_dropped env args st, ?_⟩, ?_, ?_, ?_, ?_, ?_, ?_⟩
  · intro varr hr hall
    apply hsome
    intro hnone
    obtain ⟨varr2, hr2, hall2⟩ := postCmd_none_inv env args st hnone
    rw [hr] at hr2
    cases hr2
    rw [hall] at hall2
    cases hall2
  · intro varr hr hall
    apply hsome
    intro hnone
    obtain ⟨varr2, hr2, hall2⟩ := putCmd_none_inv env args st hnone
    rw [hr] at hr2
    cases hr2
    rw [hall] at hall2
    cases hall2
  · intro varr hf hr hall
    apply hsome
    intro hnone
    obtain ⟨varr2, hr2, hall2⟩ := (deleteCmd_none_inv env args st hnone).2 hf
    rw [hr] at hr2
    cases hr2
    rw [hall] at hall2
    cases hall2
  · intro kind names hf hargs hall
    apply hsome
    intro hnone
    obtain ⟨kind2, names2, hargs2, hall2⟩ := (deleteCmd_none_inv env args st hnone).1 hf
    rw [hargs] at hargs2
    cases hargs2
    rw [hall] at hall2
    cases hall2
  · intro _
    obtain ⟨X, hX, hnone⟩ := getCmd_calls env args st
    rw [newCalls_append st _ X hX]
    exact hnone
  · intro h
    obtain ⟨X, hX, hnone⟩ := listCmd_calls env args st
    rw [newCalls_append st _ X hX]
    exact hnone h
  · intro err herr
    refine ⟨?_, ?_, ?_⟩
    · unfold postCmd
      split
      · rfl
      · simp [herr]
    · unfold putCmd
      split
      · rfl
      · simp [herr]
    · intro hf
      unfold deleteCmd
      simp only [hf, if_false]
      split
      · rfl
      · simp [herr]
  · intro kind hk
    refine ⟨?_, ?_, ?_⟩
    · intro name hargs
      subst hargs
      simp [getCmd, setup_unknown env kind name st hk]
    · intro hargs
      subst hargs
      simp [listCmd, setup_unknown env kind "" st hk]
    · intro name rest hf hargs
      subst hargs
      simp [deleteCmd, hf, deleteArgsLoop, setup_unknown env kind name st hk]
  · intro kind name s item e hargs hs hg hy
    subst hargs
    simp [getCmd, setup_known env kind name st s hs, clientGet, hg, hy]
  · intro kind s e hargs hs hl
    subst hargs
    simp [listCmd, setup_known env kind "" st s hs, clientList, hl]
  · intro kind s items hargs hs hl
    subst hargs
    simp only [listCmd, setup_known env kind "" st s hs, clientList, hl, true_and]
    intro p hp e he
    exact (listLoop_prints_errors env items _).2 p hp e he
  · intro r
    cases r <;> simp [mainStatus]

/-- C3, amended, at a concrete input: the store refuses the second of three documents,
so `create` returns an error and `main` ends with a status that is not zero. -/
theorem errors_are_returned_except_yaml_errors_of_list_witness :
    (exampleEnv threeDocs).Post ⟨"destination-policy", "p", "default"⟩ "rejected"
      [(⟨"route-rule", "r1", "default"⟩, "a")] =
      (some "rejected by the store", [(⟨"route-rule", "r1", "default"⟩, "a")]) ∧
    (postCmd (exampleEnv threeDocs) [] (exampleState "" [])).1.isSome = true ∧
    mainStatus (postCmd (exampleEnv threeDocs) [] (exampleState "" [])).1 ≠ 0 := by
  have h := errors_are_returned_except_yaml_errors_of_list (exampleEnv threeDocs) []
    (exampleState "" [])
  have hpost := h.2.1.1 threeParsed rfl (by decide)
  exact ⟨rfl, hpost, (h.2.2.2.2.2.2.2.2 _).mpr hpost⟩

end Properties

end Istioctl

/-! ## The properties that `controller_test.go` tests -/

section KubeProperties

/-- C4. In the model of `ingressIgnored` taken from the spec, an ingress is ignored exactly
when the annotation `kubernetes.io/ingress.class` is present with a value that is not
empty and not equal to `istio` up to case; the classes of the table of
`TestIngressIgnored` come out as the table says (`nginx` ignored; `istio`, `Istio` and
the empty class not ignored), and neither a missing annotation nor one with an empty
value is ignored. -/
theorem ingressIgnored_iff_foreign_class (ingress : Kube.Ingress) :
    (Kube.ingressIgnored ingress = true ↔
      ∃ cls, ingress.Annotations.lookup Kube.ingressClassKey = some cls ∧
        cls ≠ "" ∧ Kube.equalFold cls "istio" = false) ∧
    Kube.ingressIgnored (Kube.testIngress "nginx") = true ∧
    Kube.ingressIgnored (Kube.testIngress "istio") = false ∧
    Kube.ingressIgnored (Kube.testIngress "Istio") = false ∧
    Kube.ingressIgnored (Kube.testIngress "") = false ∧
    Kube.ingressIgnored ⟨"test-ingress", "default", []⟩ = false ∧
    Kube.ingressIgnored ⟨"test-ingress", "default", [(Kube.ingressClassKey, "")]⟩ =
      false := by
  refine ⟨?_, by decide, by decide, by decide, by decide, by decide, by decide⟩
  unfold Kube.ingressIgnored
  cases h : ingress.Annotations.lookup Kube.ingressClassKey with
  | none => simp
  | some cls =>
    by_cases hc : cls = ""
    · simp [hc]
    · simp [hc]

end KubeProperties
